import Mathlib

/-!
Verification of the document segmentation and chunk-orchestration engine of the
ScalarFieldTask repository (`proto-3/10-k_modified.py`) and of the structure
transformer of `filing_parser_pipeline.py`.

This file is a shallow embedding of the relevant Python functions:

* `detect_section_boundaries` (filtering stages), `create_processing_chunks`,
  `extract_sections_dynamic`, `process_chunk_with_backtrack`,
  `reduce_chunk_size`, the chunk-queue loop of `process_with_gemini`,
  `combine_incremental_results`, `determine_section_category`
  (all from `proto-3/10-k_modified.py`), and
* `transform_sections` / `transform_parts` (from `filing_parser_pipeline.py`).

Modelling conventions:

* Document text is `List Char`; Python slices `s[a:b]` are modelled exactly
  (including clamping and negative-index semantics where Int indices occur).
* Python machine floats appear only as `section_tokens * 0.1` accumulations and
  the `available_tokens * 0.8` threshold; both are multiples of one tenth, so
  they are modelled exactly in scaled integer arithmetic
  (`estimatedOutputX10` holds ten times the Python float value, and the
  oversized test `t > a * 0.8` is modelled as `10 * t > 8 * a`).  The models
  agree with float evaluation except on knife-edge inputs where the float
  representation error of 0.1/0.8 flips a comparison; all theorems and
  concrete inputs below stay away from such boundaries.
* The remote model (`self.model.generate_content`) is a black box: it is a
  parameter `gen : Nat → ModelOutcome δ` giving, per attempt, either a raised
  exception, an empty response, a non-JSON text, or a parsed JSON response.
  Parsed responses are represented post-`json.loads` with the `dict.get`
  defaults of the source already applied.
* The prompt template bodies are opaque configuration strings (spec §1), so
  the token estimate of a built prompt is a parameter `pt : PChunk → Nat`,
  and the estimated token count of the system prompt is a parameter
  `sysTokens : Nat`; theorems quantify over them.
-/

/-! ## Generic helpers: Python slices and insertion-ordered dictionaries -/

/-- Python `s[a:b]` for nonnegative indices: elements with index in
`[min a (length s), min b (length s))`. -/
def pySlice (l : List α) (a b : Nat) : List α :=
  (l.take b).drop a

/-- Length of `s[a:b]` (nonnegative indices) for a document of length `len`. -/
def pyLen (len a b : Nat) : Nat :=
  min b len - min a len

/-- Normalize a possibly negative Python index against a length. -/
def pyNorm (len : Nat) (i : Int) : Nat :=
  if i < 0 then ((len : Int) + i).toNat else min i.toNat len

/-- Python `s[a:b]` with full negative-index semantics. -/
def pySliceI (l : List α) (a b : Int) : List α :=
  (l.take (pyNorm l.length b)).drop (pyNorm l.length a)

/-- Lookup in an insertion-ordered string-keyed dictionary
(Python `d.get(k)` / `d[k]`). -/
def lookupA : List (String × α) → String → Option α
  | [], _ => none
  | (k', v) :: rest, k => if k' = k then some v else lookupA rest k

/-- Python `d[k] = v` on an insertion-ordered dictionary: an existing key keeps
its position and gets the new value; a new key is appended at the end. -/
def dictSet (k : String) (v : α) : List (String × α) → List (String × α)
  | [] => [(k, v)]
  | (k', v') :: rest => if k' = k then (k, v) :: rest else (k', v') :: dictSet k v rest

/-- First-`some`-wins choice on `Option` (used to state lookup lemmas). -/
def optOr : Option α → Option α → Option α
  | some x, _ => some x
  | none, b => b

/-- Distance between two natural positions (`abs (a - b)` on Python ints). -/
def natDist (a b : Nat) : Nat :=
  if a ≥ b then a - b else b - a

/-! ## Python values and the structure transformer (`filing_parser_pipeline.py`) -/

/-- A JSON-like Python value, as handled by `transform_sections` /
`transform_parts`.  Dictionaries are insertion-ordered string-keyed
association lists, matching Python `dict` semantics for the operations the
source performs. -/
inductive PyVal where
  | pnull : PyVal
  | pbool : Bool → PyVal
  | pint : Int → PyVal
  | pstr : String → PyVal
  | plist : List PyVal → PyVal
  | pdict : List (String × PyVal) → PyVal

/-- Python truthiness for the values of `PyVal`. -/
def pyTruthy : PyVal → Bool
  | .pnull => false
  | .pbool b => b
  | .pint n => n ≠ 0
  | .pstr s => s ≠ ""
  | .plist l => !l.isEmpty
  | .pdict d => !d.isEmpty

/-- A Python dict object (one element of the transformer's output lists). -/
abbrev PyDict := List (String × PyVal)

/-- The body of `transform_sections` for a list element at enumerate index
`idx`: `if "section_id" not in sec: sec = {**sec, "section_id": f"section_{idx}"}`. -/
def ensureSectionId (idx : Nat) (sec : PyDict) : PyDict :=
  if (lookupA sec "section_id").isSome then sec
  else sec ++ [("section_id", .pstr ("section_" ++ toString idx))]

/-- The list branch of `transform_sections`: iterate with `enumerate`, keep
only dict elements, defaulting the `section_id`. -/
def transformSectionsList : Nat → List PyVal → List PyDict
  | _, [] => []
  | idx, sec :: rest =>
    match sec with
    | .pdict d => ensureSectionId idx d :: transformSectionsList (idx + 1) rest
    | _ => transformSectionsList (idx + 1) rest

/-- The dict branch of `transform_sections`: one output object per key; a dict
value gets `section_id` set to the key (`{**value, "section_id": key}`), any
other value is wrapped as `{"section_id": key, "value": value}`. -/
def transformSectionsDict : PyDict → List PyDict
  | [] => []
  | (k, v) :: rest =>
    (match v with
     | .pdict dd => dictSet "section_id" (.pstr k) dd
     | _ => [("section_id", .pstr k), ("value", v)]) :: transformSectionsDict rest

/-- `transform_sections` of `filing_parser_pipeline.py` (lines 197–219). -/
def transformSections : PyVal → List PyDict
  | .plist l => transformSectionsList 0 l
  | .pdict d => transformSectionsDict d
  | _ => []

/-- The list branch of `transform_parts`: skip non-dict elements; for a dict
element, transform its `sections`, rebuild the object without the original
`sections` key, append the transformed `sections`, and default a falsy
`part_name` to the original value or `"Part"`. -/
def transformPartsList : List PyVal → List PyDict
  | [] => []
  | p :: rest =>
    match p with
    | .pdict part =>
      let partName : PyVal := (lookupA part "part_name").getD .pnull
      let sections := transformSections ((lookupA part "sections").getD .pnull)
      let base0 : PyDict := part.filter (fun q => q.1 ≠ "sections")
      let base1 : PyDict := dictSet "sections" (.plist (sections.map .pdict)) base0
      let base2 : PyDict :=
        if pyTruthy ((lookupA base1 "part_name").getD .pnull) then base1
        else dictSet "part_name" (if pyTruthy partName then partName else .pstr "Part") base1
      base2 :: transformPartsList rest
    | _ => transformPartsList rest

/-- The dict branch of `transform_parts`. -/
def transformPartsDict : PyDict → List PyDict
  | [] => []
  | (k, v) :: rest =>
    (match v with
     | .pdict part =>
       let partName : PyVal :=
         if pyTruthy ((lookupA part "part_name").getD .pnull)
         then (lookupA part "part_name").getD .pnull else .pstr k
       let sections := transformSections ((lookupA part "sections").getD .pnull)
       let base0 : PyDict := part.filter (fun q => q.1 ≠ "sections")
       let base1 : PyDict := dictSet "part_name" partName base0
       dictSet "sections" (.plist (sections.map .pdict)) base1
     | _ => [("part_name", .pstr k), ("value", v), ("sections", .plist [])]) ::
    transformPartsDict rest

/-- `transform_parts` of `filing_parser_pipeline.py` (lines 221–253). -/
def transformParts : PyVal → List PyDict
  | .plist l => transformPartsList l
  | .pdict d => transformPartsDict d
  | _ => []

/-- Test whether a `PyVal` is a dict (used only to state theorems). -/
def isPyDict : PyVal → Bool
  | .pdict _ => true
  | _ => false

/-- Test whether a `PyVal` is a list (used only to state theorems). -/
def isPyList : PyVal → Bool
  | .plist _ => true
  | _ => false

/-! ## Chunk planner (`create_processing_chunks`, `extract_sections_dynamic`) -/

/-- A detected section boundary as consumed by the planner (the fields of the
boundary dicts of `detect_section_boundaries` that `create_processing_chunks`
reads).  Confidence is stored as ten times the Python float (0.5–0.9 become
5–9). -/
structure Boundary where
  position : Nat
  itemNumber : Option String
  title : String
  confidenceX10 : Nat
deriving Repr, DecidableEq

/-- A section record inside a planned chunk (`create_processing_chunks`
lines 564–571 and 612–619). -/
structure PlanSection where
  itemNumber : Option String
  title : String
  position : Nat
  endPosition : Nat
  estimatedTokens : Nat
  confidenceX10 : Nat
deriving Repr, DecidableEq

/-- A planned chunk before content extraction (`current_chunk` /
`large_section_chunk` dicts).  `estimatedOutputX10` is ten times the Python
float `estimated_output_tokens`. -/
structure PlanChunk where
  startPos : Nat
  endPos : Nat
  sections : List PlanSection
  estimatedInputTokens : Nat
  estimatedOutputX10 : Nat
deriving Repr, DecidableEq

/-- `estimate_token_count`: `len(text) // 4`. -/
def estimateTokenCount (len : Nat) : Nat := len / 4

/-- `available_tokens = max_input_tokens - system_prompt_tokens - 1000`
(the source computes `system_prompt_tokens` from the opaque system prompt;
here it is a parameter). -/
def availableTokens (maxInputTokens sysTokens : Nat) : Nat :=
  maxInputTokens - sysTokens - 1000

/-- The accumulator chunk of the planner loop. -/
structure PlanCur where
  startPos : Nat
  sections : List PlanSection
  estimatedInputTokens : Nat
  estimatedOutputX10 : Nat
deriving Repr, DecidableEq

/-- Close the running accumulator as a chunk ending at `endPos`. -/
def flushCur (cur : PlanCur) (endPos : Nat) : PlanChunk :=
  { startPos := cur.startPos, endPos := endPos, sections := cur.sections,
    estimatedInputTokens := cur.estimatedInputTokens,
    estimatedOutputX10 := cur.estimatedOutputX10 }

/-- Position of the next boundary, or the document length for the last one
(`boundaries[i + 1]['position'] if i + 1 < len(boundaries) else len(document_content)`). -/
def nextBoundaryPos (docLen : Nat) : List Boundary → Nat
  | [] => docLen
  | b :: _ => b.position

/-- The loop body of `create_processing_chunks` (lines 540–631) as structural
recursion over the boundary list.  The document enters only through its
length: the token estimate of `document_content[position:next_pos]` is a
function of the positions.  Scaled arithmetic: a section is oversized when
`section_tokens > available_tokens * 0.8`, modelled as `10 * t > 8 * avail`;
output estimates are `section_tokens * 0.1`, accumulated as `t` in the
`X10` fields, and the output check `out + est > max_output_tokens` becomes
`outX10 + t > 10 * maxOut`. -/
def planAux (docLen avail maxOutputTokens : Nat) : List Boundary → PlanCur → List PlanChunk
  | [], cur =>
    -- Add final chunk
    if cur.sections.isEmpty then [] else [flushCur cur docLen]
  | b :: rest, cur =>
    let nextPos := nextBoundaryPos docLen rest
    let sectionTokens := estimateTokenCount (pyLen docLen b.position nextPos)
    let newSection : PlanSection :=
      { itemNumber := b.itemNumber, title := b.title, position := b.position,
        endPosition := nextPos, estimatedTokens := sectionTokens,
        confidenceX10 := b.confidenceX10 }
    if 10 * sectionTokens > 8 * avail then
      -- Special handling for very large sections
      let largeChunk : PlanChunk :=
        { startPos := b.position, endPos := nextPos,
          sections := [{ newSection with title := b.title ++ " [LARGE SECTION]" }],
          estimatedInputTokens := sectionTokens,
          estimatedOutputX10 := sectionTokens }
      let emitted :=
        if cur.sections.isEmpty then [largeChunk]
        else [flushCur cur b.position, largeChunk]
      emitted ++ planAux docLen avail maxOutputTokens rest
        { startPos := nextPos, sections := [], estimatedInputTokens := 0,
          estimatedOutputX10 := 0 }
    else
      let wouldExceedInput := cur.estimatedInputTokens + sectionTokens > avail
      let wouldExceedOutput := cur.estimatedOutputX10 + sectionTokens > 10 * maxOutputTokens
      if wouldExceedInput ∨ wouldExceedOutput then
        let emitted := if cur.sections.isEmpty then [] else [flushCur cur b.position]
        emitted ++ planAux docLen avail maxOutputTokens rest
          { startPos := b.position, sections := [newSection],
            estimatedInputTokens := sectionTokens, estimatedOutputX10 := sectionTokens }
      else
        planAux docLen avail maxOutputTokens rest
          { cur with
            sections := cur.sections ++ [newSection],
            estimatedInputTokens := cur.estimatedInputTokens + sectionTokens,
            estimatedOutputX10 := cur.estimatedOutputX10 + sectionTokens }

/-- `create_processing_chunks(document_content, boundaries, max_input_tokens,
max_output_tokens)`; `sysTokens` stands for `estimate_token_count(self.system_prompt)`.
Defaults in the source: `max_input_tokens=750000`, `max_output_tokens=8000`. -/
def createProcessingChunks (docLen : Nat) (boundaries : List Boundary)
    (maxInputTokens maxOutputTokens sysTokens : Nat) : List PlanChunk :=
  planAux docLen (availableTokens maxInputTokens sysTokens) maxOutputTokens boundaries
    { startPos := 0, sections := [], estimatedInputTokens := 0, estimatedOutputX10 := 0 }

/-- A processing chunk with its extracted content (step 3 of
`extract_sections_dynamic`, lines 660–673). -/
structure ExtractedChunk where
  chunkId : Nat
  content : List Char
  sections : List PlanSection
  estimatedInputTokens : Nat
  estimatedOutputX10 : Nat
  startPos : Nat
  endPos : Nat
deriving Repr, DecidableEq

/-- Step 3 of `extract_sections_dynamic`: slice the document at each planned
chunk's span and assign 1-based chunk ids. -/
def extractContent (doc : List Char) (chunks : List PlanChunk) : List ExtractedChunk :=
  (chunks.enum).map fun p =>
    { chunkId := p.1 + 1,
      content := pySlice doc p.2.startPos p.2.endPos,
      sections := p.2.sections,
      estimatedInputTokens := p.2.estimatedInputTokens,
      estimatedOutputX10 := p.2.estimatedOutputX10,
      startPos := p.2.startPos, endPos := p.2.endPos }

/-- `extract_sections_dynamic` restricted to the case of a nonempty boundary
list (with no boundaries the source returns a single whole-document pseudo
chunk instead of calling the planner). -/
def extractSectionsDynamic (doc : List Char) (boundaries : List Boundary)
    (maxInputTokens maxOutputTokens sysTokens : Nat) : List ExtractedChunk :=
  extractContent doc
    (createProcessingChunks doc.length boundaries maxInputTokens maxOutputTokens sysTokens)

/-- Concatenation of the chunk contents in order. -/
def concatContent (chunks : List ExtractedChunk) : List Char :=
  (chunks.map ExtractedChunk.content).flatten

/-- Contiguous tiling of `[s, e)` by the chunk spans: each chunk starts where
the previous one ended, spans are non-degenerate, and the last chunk ends at
`e`.  This is the formal "no gaps and no overlaps" statement. -/
def tiles (s e : Nat) : List PlanChunk → Bool
  | [] => s == e
  | c :: rest => c.startPos == s && Nat.ble s c.endPos && tiles c.endPos e rest

/-- The start offset actually covered by the planner's chunks: 0, unless the
first boundary starts a fresh chunk at its own position (oversized first
section, or a first section whose lone token estimate already exceeds a
budget), in which case text before the first boundary is dropped. -/
def effectiveStart (docLen avail maxOutputTokens : Nat) : List Boundary → Nat
  | [] => docLen
  | b :: rest =>
    let nextPos := nextBoundaryPos docLen rest
    let sectionTokens := estimateTokenCount (pyLen docLen b.position nextPos)
    if 10 * sectionTokens > 8 * avail ∨ sectionTokens > avail ∨
        sectionTokens > 10 * maxOutputTokens then
      b.position
    else 0

/-! ## Boundary detector: filtering stages of `detect_section_boundaries`

The five regex strategies (lines 383–445) scan the raw text and produce match
records; the resulting list is then sorted, deduplicated per item number,
re-sorted and proximity-filtered (lines 447–501).  The regex scan itself is
not embedded; the filtering pipeline below is stated over an arbitrary list of
match records, the shape the strategies produce: item-header strategies emit a
nonempty captured item number, the `part_headers` strategy emits `none`. -/

/-- A raw boundary record as appended at lines 435–445 (the diagnostic fields
`full_match`, `context_before`, `context_after` are carried nowhere into the
filtering decisions and are omitted). -/
structure RawBoundary where
  strategy : String
  confidenceX10 : Nat
  position : Nat
  endPosition : Nat
  itemNumber : Option String
  title : String
deriving Repr, DecidableEq

/-- Python truthiness of `boundary['item_number']`: a nonempty captured item
string selects the item-dedup path, `None` (or an empty string) the PART path. -/
def itemKey (b : RawBoundary) : Option String :=
  match b.itemNumber with
  | some s => if s = "" then none else some s
  | none => none

/-- `boundary['title'].strip().upper()` (ASCII case model of `str.upper`). -/
def partTitle (b : RawBoundary) : String :=
  b.title.trim.toUpper

/-- Characters removed by `re.sub(r'[│┃║\s\n\-=_]', '', ...)` in the PART
content check (ASCII model of `\s`). -/
def isDecorative (c : Char) : Bool :=
  c = '│' || c = '┃' || c = '║' || c = '-' || c = '=' || c = '_' ||
  c = ' ' || c = '\t' || c = '\n' || c = '\r' || c = '\x0b' || c = '\x0c'

/-- Lines 476–480: a PART header is kept only if the 1000 characters after it
contain more than 100 non-decorative characters. -/
def hasContentAfter (doc : List Char) (pos : Nat) : Bool :=
  100 < ((pySlice doc pos (pos + 1000)).filter (fun c => !isDecorative c)).length

/-- State of the dedup loop at lines 451–484: the `filtered_boundaries` list
and the `seen_items` dictionary (which maps item numbers to their best
boundary and normalized PART titles to their first kept boundary). -/
structure DedupState where
  filtered : List RawBoundary
  seen : List (String × RawBoundary)
deriving Repr, DecidableEq

/-- One iteration of the dedup loop (lines 454–484). -/
def dedupStep (doc : List Char) (st : DedupState) (b : RawBoundary) : DedupState :=
  match itemKey b with
  | some key =>
    match lookupA st.seen key with
    | none =>
      { filtered := st.filtered ++ [b], seen := dictSet key b st.seen }
    | some old =>
      if b.confidenceX10 > old.confidenceX10 then
        { filtered := (st.filtered.erase old) ++ [b], seen := dictSet key b st.seen }
      else st
  | none =>
    let pt := partTitle b
    match lookupA st.seen pt with
    | some _ => st
    | none =>
      if hasContentAfter doc b.position then
        { filtered := st.filtered ++ [b], seen := dictSet pt b st.seen }
      else st

/-- The full dedup pass over a (position-sorted) boundary list. -/
def dedupBoundaries (doc : List Char) (bs : List RawBoundary) : List RawBoundary :=
  (bs.foldl (dedupStep doc) { filtered := [], seen := [] }).filtered

/-- Position order used by the two `sort(key=lambda x: x['position'])` calls. -/
def posLe (a b : RawBoundary) : Prop :=
  a.position ≤ b.position

instance : DecidableRel posLe := fun a b => Nat.decLe a.position b.position

instance : IsTotal RawBoundary posLe := ⟨fun a b => Nat.le_total a.position b.position⟩

instance : IsTrans RawBoundary posLe := ⟨fun _ _ _ => Nat.le_trans⟩

/-- A stable sort by position (Python `list.sort` is stable; `insertionSort`
with a `≤` relation is stable in the same sense). -/
def sortByPosition (bs : List RawBoundary) : List RawBoundary :=
  bs.insertionSort posLe

/-- The proximity filter at lines 489–501: walk the sorted survivors and drop
any boundary within 200 characters of an already-kept one. -/
def proximityFilter : List RawBoundary → List RawBoundary → List RawBoundary
  | kept, [] => kept
  | kept, b :: rest =>
    if kept.any (fun e => natDist b.position e.position < 200) then
      proximityFilter kept rest
    else
      proximityFilter (kept ++ [b]) rest

/-- The complete filtering pipeline of `detect_section_boundaries` applied to
the strategies' match records: sort by position (line 448), dedup
(lines 451–484), final sort by position (line 487), proximity filter
(lines 489–501). -/
def filterBoundaries (doc : List Char) (ms : List RawBoundary) : List RawBoundary :=
  proximityFilter []
    (sortByPosition (dedupBoundaries doc (sortByPosition ms)))

/-- The dedup stage output in document order, before proximity filtering
(the list at line 487). -/
def dedupStage (doc : List Char) (ms : List RawBoundary) : List RawBoundary :=
  sortByPosition (dedupBoundaries doc (sortByPosition ms))

/-! ## Section categorisation and the incremental result combiner -/

/-- ASCII decimal digit (`\d` over the section names handled here). -/
def isAsciiDigit (c : Char) : Bool :=
  '0' ≤ c && c ≤ '9'

/-- ASCII whitespace (`\s`). -/
def isPySpace (c : Char) : Bool :=
  c = ' ' || c = '\t' || c = '\n' || c = '\r' || c = '\x0b' || c = '\x0c'

/-- Attempt to match `Item\s+(\d+[A-C]?)` (with `re.IGNORECASE`) at the head
of the character list, returning the captured group.  `\s+` and `\d+` are
greedy and followed by disjoint character classes, so greedy matching is
exact; `[A-C]?` takes one following letter in `A`–`C` or `a`–`c` if present,
preserving its case in the capture. -/
def matchItemAt : List Char → Option String
  | c1 :: c2 :: c3 :: c4 :: rest =>
    if c1.toLower = 'i' ∧ c2.toLower = 't' ∧ c3.toLower = 'e' ∧ c4.toLower = 'm' then
      let sp := rest.takeWhile isPySpace
      if sp.isEmpty then none
      else
        let rest2 := rest.dropWhile isPySpace
        let ds := rest2.takeWhile isAsciiDigit
        if ds.isEmpty then none
        else
          let rest3 := rest2.dropWhile isAsciiDigit
          let letter : List Char :=
            match rest3 with
            | c :: _ => if c = 'A' ∨ c = 'B' ∨ c = 'C' ∨ c = 'a' ∨ c = 'b' ∨ c = 'c'
                        then [c] else []
            | [] => []
          some (String.mk (ds ++ letter))
    else none
  | _ => none

/-- `re.search(r'Item\s+(\d+[A-C]?)', name, re.IGNORECASE)`: leftmost match. -/
def searchItemNumber : List Char → Option String
  | [] => none
  | c :: rest =>
    match matchItemAt (c :: rest) with
    | some g => some g
    | none => searchItemNumber rest

/-- The `section_to_category` table of `TenKProcessor.__init__` (lines 55–78). -/
def sectionToCategory : List (String × String) :=
  [("Item 1", "Part I: Business and Risk Factors"),
   ("Item 1A", "Part I: Business and Risk Factors"),
   ("Item 1B", "Part I: Business and Risk Factors"),
   ("Item 2", "Part I: Business and Risk Factors"),
   ("Item 3", "Part I: Business and Risk Factors"),
   ("Item 4", "Part I: Business and Risk Factors"),
   ("Item 5", "Part II: Financial Information"),
   ("Item 6", "Part II: Financial Information"),
   ("Item 7", "Part II: Financial Information"),
   ("Item 7A", "Part II: Financial Information"),
   ("Item 8", "Part II: Financial Information"),
   ("Item 9", "Part II: Financial Information"),
   ("Item 9A", "Part II: Financial Information"),
   ("Item 9B", "Part II: Financial Information"),
   ("Item 9C", "Part II: Financial Information"),
   ("Item 10", "Part III: Governance"),
   ("Item 11", "Part III: Governance"),
   ("Item 12", "Part III: Governance"),
   ("Item 13", "Part III: Governance"),
   ("Item 14", "Part III: Governance"),
   ("Item 15", "Part IV: Exhibits and Schedules"),
   ("Item 16", "Part IV: Exhibits and Schedules")]

/-- `determine_section_category` (lines 1211–1228). -/
def determineSectionCategory (sectionName : String) : String :=
  match searchItemNumber sectionName.data with
  | some g => (lookupA sectionToCategory ("Item " ++ g)).getD
      "Part I: Business and Risk Factors"
  | none => "Part I: Business and Risk Factors"

/-- The four fixed category names, in the initialisation order of
`combine_incremental_results` (lines 1156–1161). -/
def categoryNames : List String :=
  ["Part I: Business and Risk Factors",
   "Part II: Financial Information",
   "Part III: Governance",
   "Part IV: Exhibits and Schedules"]

/-- The categories mapping: category name → insertion-ordered mapping from
section name to the section's payload (the JSON fragment the model returned,
opaque here). -/
def Categories (δ : Type) := List (String × List (String × δ))

/-- The initial four-category skeleton. -/
def initCategories (δ : Type) : Categories δ :=
  categoryNames.map (fun n => (n, []))

/-- `categories[category][section_name] = section_data` (line 1197): update
the inner dictionary of one category, leaving the outer keys untouched. -/
def catInsert (cats : Categories δ) (sectionName : String) (payload : δ) : Categories δ :=
  cats.map fun p =>
    if p.1 = determineSectionCategory sectionName
    then (p.1, dictSet sectionName payload p.2)
    else p

/-- Insert every section of one successful chunk result, in order. -/
def catInsertAll (cats : Categories δ) (sections : List (String × δ)) : Categories δ :=
  sections.foldl (fun acc q => catInsert acc q.1 q.2) cats

/-- A section record of a failed chunk, as read by the combiner's
`sections_attempted` comprehension (`s.get('item_number', ...)`; the planner
and processor always populate the `item_number` key, possibly with `None`, so
`.get` returns that value). -/
structure FailedSection where
  itemNumber : Option String
  title : String
deriving Repr, DecidableEq

/-- One element of the `chunk_results` list consumed by
`combine_incremental_results`: either a parsed model response (no `'error'`
key; its `sections` mapping), or a failed-chunk record (with an `'error'`
key, produced at lines 1111–1116). -/
inductive CombResult (δ : Type) where
  | ok (sections : List (String × δ))
  | failed (chunkId : String) (error : Option String) (sections : List FailedSection)
deriving Repr, DecidableEq

/-- A `failed_chunks` metadata record (lines 1181–1186). -/
structure FailedRec where
  chunkId : String
  error : Option String
  sectionsAttempted : List (Option String)
deriving Repr, DecidableEq

/-- The final combined structure (`final_json` of
`combine_incremental_results`, with the fixed nesting flattened into named
fields: `company → year → {FORM, CATEGORIES, PROCESSING_METADATA}`). -/
structure StructuredFiling (δ : Type) where
  company : String
  year : String
  form : String
  categories : Categories δ
  processingMethod : String
  chunksProcessed : Nat
  timestamp : String
  failedChunks : List FailedRec
  totalSectionsExtracted : Nat
  sectionsByCategory : List (String × Nat)

/-- The combiner's per-result step: a failed record appends failure metadata,
a successful one merges its sections into the categories. -/
def combineStep (acc : Categories δ × List FailedRec) (r : CombResult δ) :
    Categories δ × List FailedRec :=
  match r with
  | .failed cid err secs =>
    (acc.1, acc.2 ++ [{ chunkId := cid, error := err,
                        sectionsAttempted := secs.map (·.itemNumber) }])
  | .ok sections => (catInsertAll acc.1 sections, acc.2)

/-- `combine_incremental_results` (lines 1137–1209).  `now` stands for
`datetime.now().isoformat()`; `company_name or "COMPANY_NAME"` defaulting is
applied by the caller of this model. -/
def combineIncrementalResults (now company year : String)
    (chunkResults : List (CombResult δ)) : StructuredFiling δ :=
  let folded := chunkResults.foldl combineStep (initCategories δ, [])
  { company := company, year := year, form := "10-K",
    categories := folded.1,
    processingMethod := "incremental_with_backtracking",
    chunksProcessed := chunkResults.length,
    timestamp := now,
    failedChunks := folded.2,
    totalSectionsExtracted := (folded.1.map (fun p => p.2.length)).sum,
    sectionsByCategory := folded.1.map (fun p => (p.1, p.2.length)) }

/-- Lookup of one section in the combined output:
`final_json[...]["CATEGORIES"][cat][sectionName]`. -/
def catLookup (f : StructuredFiling δ) (cat sectionName : String) : Option δ :=
  match lookupA f.categories cat with
  | some inner => lookupA inner sectionName
  | none => none

/-! ## Chunk processor with backtracking (`process_chunk_with_backtrack`)

Positions inside processor-level chunks are integers: `reduce_chunk_size` can
produce a negative split point through Python's negative-index slicing, so the
`position` / `end_position` fields are modelled as `Int` with exact Python
slice semantics (`pySliceI`). -/

/-- A section dict inside a processing chunk, as read by the processor
(`item_number`, `title`, `position`, `end_position`; the diagnostic
`estimated_tokens` / `confidence` fields are never read by the processor and
are omitted). -/
structure PSection where
  itemNumber : Option String
  title : String
  position : Int
  endPosition : Int
deriving Repr, DecidableEq

/-- A processing chunk as consumed by `process_chunk_with_backtrack`. -/
structure PChunk where
  chunkId : String
  content : List Char
  sections : List PSection
  startPos : Int
  endPos : Int
  estimatedInputTokens : Nat
deriving Repr, DecidableEq

/-- `f"Item {s['item_number']}"` — Python renders a missing item number
(`None`) as the string `"None"`. -/
def itemLabel (s : PSection) : String :=
  "Item " ++ (match s.itemNumber with | some k => k | none => "None")

/-- `reduce_chunk_size` (lines 935–986).  Returns `none` when the Python code
raises `IndexError` (`sections[0]` on an empty section list); otherwise the
reduced chunk.  For a single section, the content is split at the first
double-newline found in `range(mid - 100, mid + 100)` (Python slice semantics
for possibly negative probe indices), and the surviving span is re-sliced from
the chunk content by absolute document offsets relative to `start_pos`. -/
def reduceChunkSize (c : PChunk) : Option PChunk :=
  let reducedSections? : Option (List PSection) :=
    if c.sections.length > 1 then
      some (c.sections.take (c.sections.length / 2))
    else
      match c.sections with
      | [] => none
      | s :: _ =>
        let sectionContent := pySliceI c.content s.position s.endPosition
        let mid0 : Int := (sectionContent.length : Int) / 2
        let found := ((List.range 200).map (fun k => mid0 - 100 + (k : Int))).find?
          (fun i => decide (i < (sectionContent.length : Int)) &&
            pySliceI sectionContent i (i + 2) == ['\n', '\n'])
        let mid := found.getD mid0
        some [{ s with title := s.title ++ " (Part 1)", endPosition := s.position + mid }]
  match reducedSections? with
  | none => none
  | some reduced =>
    match reduced with
    | [] =>
      -- dead branch in the source (`reduced_sections` is nonempty whenever no
      -- exception was raised); kept for structural fidelity
      some { c with
             sections := [],
             content := c.content.take (c.content.length / 2),
             estimatedInputTokens := estimateTokenCount (c.content.length / 2),
             chunkId := c.chunkId ++ "_reduced" }
    | r0 :: _ =>
      let startP := r0.position
      let endP := (reduced.getLastD r0).endPosition
      let newContent := pySliceI c.content (startP - c.startPos) (endP - c.startPos)
      some { c with
             sections := reduced,
             content := newContent,
             estimatedInputTokens := estimateTokenCount newContent.length,
             chunkId := c.chunkId ++ "_reduced" }

/-- A parsed model response, with the `dict.get` defaults of the source
already applied: `processing_status` (`None` when absent, defaulted to
`"unknown"` at the read site), `chunk_metadata.sections_completed`
(default `[]`), `chunk_metadata.next_expected_item` (default `None`),
and the `sections` payload mapping. -/
structure RespJson (δ : Type) where
  processingStatus : Option String
  sectionsCompleted : List String
  nextExpectedItem : Option String
  sections : List (String × δ)
deriving Repr, DecidableEq

/-- One behaviour of `self.model.generate_content` plus `json.loads` on its
text: a raised transport exception, a falsy `response.text`, text that fails
JSON parsing, or a parsed JSON response. -/
inductive ModelOutcome (δ : Type) where
  | exn (msg : String)
  | empty
  | invalidJson (raw : String)
  | json (r : RespJson δ)

/-- The dict returned by `process_chunk_with_backtrack`, with one field per
key the source may set (absent keys are `none` / `[]` / `false`). -/
structure ProcResult (δ : Type) where
  success : Bool
  result : Option (RespJson δ) := none
  completedSections : List String := []
  nextItem : Option String := none
  remainingChunk : Option PChunk := none
  partFlag : Bool := false
  retryCount : Option Nat := none
  error : Option String := none
  rawResponse : Option String := none
deriving Repr, DecidableEq

/-- Result of one loop iteration: continue with a (reduced) chunk, return a
result, or let an exception escape the function. -/
inductive IterStep (δ : Type) where
  | cont (c : PChunk)
  | done (r : ProcResult δ)
  | raised (msg : String)
deriving Repr, DecidableEq

/-- `response.text[:1000] + "..." if len(response.text) > 1000 else response.text`. -/
def truncateRaw (raw : String) : String :=
  if raw.length > 1000 then raw.take 1000 ++ "..." else raw

/-- Python's `str.startswith`, phrased structurally on the character lists so
that it evaluates inside the kernel. -/
def pyStartsWith (s pre : String) : Bool := pre.data.isPrefixOf s.data

/-- The outer `except Exception` handler (lines 916–927), entered with the
message of the caught exception: with retries left it shrinks and continues —
and if the shrink itself raises `IndexError` inside the handler, that
exception escapes the function — otherwise it returns a failure result. -/
def outerCatch (maxRetries rc : Nat) (cur : PChunk) (msg : String) : IterStep δ :=
  if rc < maxRetries - 1 then
    match reduceChunkSize cur with
    | some c' => .cont c'
    | none => .raised "list index out of range"
  else .done { success := false, error := some msg, retryCount := some rc }

/-- The recurring "shrink the chunk or let the IndexError escape to the outer
handler" step (`reduce_chunk_size` call sites inside the loop body). -/
def redStep (maxRetries rc : Nat) (cur : PChunk) : IterStep δ :=
  match reduceChunkSize cur with
  | some c' => .cont c'
  | none => outerCatch maxRetries rc cur "list index out of range"

/-- One iteration of the `while retry_count < max_retries` loop of
`process_chunk_with_backtrack` (lines 811–927), given the model's behaviour
for this attempt.  `pt` is the token estimate of the built prompt (the prompt
template is opaque configuration), `cap` is `self.max_tokens_per_chunk`. -/
def procIteration (pt : PChunk → Nat) (cap maxRetries : Nat)
    (outcome : ModelOutcome δ) (rc : Nat) (cur : PChunk) : IterStep δ :=
  if pt cur > cap then
    -- input tokens exceed the hard cap: reduce without invoking the model;
    -- an IndexError from the reduction is caught by the outer handler
    match reduceChunkSize cur with
    | some c' => .cont c'
    | none => outerCatch maxRetries rc cur "list index out of range"
  else
    match outcome with
    | .exn msg => outerCatch maxRetries rc cur msg
    | .empty => outerCatch maxRetries rc cur "Empty response from Gemini"
    | .invalidJson raw =>
      -- `except json.JSONDecodeError` (lines 901–912)
      if rc < maxRetries - 1 then
        match reduceChunkSize cur with
        | some c' => .cont c'
        | none => outerCatch maxRetries rc cur "list index out of range"
      else
        .done { success := false,
                error := some ("JSON decode error after " ++ toString (rc + 1) ++ " attempts"),
                rawResponse := some (truncateRaw raw) }
    | .json r =>
      let status := r.processingStatus.getD "unknown"
      if pyStartsWith status "completed" then
        .done { success := true, result := some r,
                completedSections := r.sectionsCompleted,
                nextItem := r.nextExpectedItem, retryCount := some rc }
      else if pyStartsWith status "partial" || pyStartsWith status "stopped" then
        if r.sectionsCompleted.isEmpty then
          -- zero progress: reduce and retry (an IndexError here is raised
          -- inside the inner try and caught by the outer handler)
          match reduceChunkSize cur with
          | some c' => .cont c'
          | none => outerCatch maxRetries rc cur "list index out of range"
        else
          let remaining := cur.sections.filter
            (fun s => !(r.sectionsCompleted.contains (itemLabel s)))
          if remaining.isEmpty then
            .done { success := true, result := some r,
                    completedSections := r.sectionsCompleted,
                    nextItem := none, retryCount := some rc }
          else
            .done { success := true, result := some r,
                    completedSections := r.sectionsCompleted,
                    remainingChunk := some { cur with
                      sections := remaining,
                      chunkId := cur.chunkId ++ "_continued" },
                    partFlag := true, retryCount := some rc }
      else
        .done { success := true, result := some r,
                completedSections := [], retryCount := some rc }

/-- Terminal outcome of one `process_chunk_with_backtrack` call: a returned
result dict, or an exception escaping the call. -/
inductive PLoopOut (δ : Type) where
  | ret (r : ProcResult δ)
  | raised (msg : String)
deriving Repr, DecidableEq

/-- The retry loop, fuel-indexed.  `none` marks fuel exhaustion; the
termination theorems show that fuel `maxRetries + 1` always suffices, which is
exactly the source's bounded `while retry_count < max_retries` loop followed
by the final failure return (lines 929–933). -/
def processLoop (gen : Nat → ModelOutcome δ) (pt : PChunk → Nat)
    (cap maxRetries : Nat) : Nat → Nat → PChunk → Option (PLoopOut δ)
  | 0, _, _ => none
  | fuel + 1, rc, cur =>
    if rc < maxRetries then
      match procIteration pt cap maxRetries (gen rc) rc cur with
      | .cont c' => processLoop gen pt cap maxRetries fuel (rc + 1) c'
      | .done r => some (.ret r)
      | .raised m => some (.raised m)
    else
      some (.ret { success := false,
                   error := some ("Failed after " ++ toString maxRetries ++ " attempts"),
                   retryCount := some rc })

/-- `process_chunk_with_backtrack(chunk, ..., max_retries)`. -/
def processChunkWithBacktrack (gen : Nat → ModelOutcome δ) (pt : PChunk → Nat)
    (cap maxRetries : Nat) (chunk : PChunk) : Option (PLoopOut δ) :=
  processLoop gen pt cap maxRetries (maxRetries + 1) 0 chunk

/-! ## The chunk-queue loop of `process_with_gemini` (lines 1073–1117) -/

/-- Driver loop state: the pending queue, the accumulated `all_results`, the
accumulated `completed_sections`, and the number of processor invocations so
far (used to index the model behaviour). -/
structure DrvState (δ : Type) where
  queue : List PChunk
  results : List (CombResult δ)
  completed : List String
  calls : Nat
deriving Repr, DecidableEq

/-- Convert one processed chunk into the entry appended to `all_results`:
the parsed response for a success (line 1097), the failed-chunk record for a
failure (lines 1111–1117; its `sections` are the chunk's section dicts). -/
def toCombResult (c : PChunk) (r : ProcResult δ) : CombResult δ :=
  if r.success then
    .ok (match r.result with | some j => j.sections | none => [])
  else
    .failed ("FAILED_" ++ c.chunkId) r.error
      (c.sections.map (fun s => { itemNumber := s.itemNumber, title := s.title }))

/-- Terminal outcome of the driver loop: normal completion, an exception
escaping the chunking loop (caught one level up by the blanket
`except Exception` of `process_with_gemini`, which then falls back to
whole-document processing), or fuel exhaustion. -/
inductive DrvOutcome (δ : Type) where
  | done (results : List (CombResult δ)) (completed : List String)
  | aborted (msg : String)
  | outOfFuel
deriving Repr, DecidableEq

/-- The `while chunk_queue` loop, fuel-indexed, also returning the trace of
processed `(chunk, result)` pairs in order.  The processor is invoked with the
source's default `max_retries = 3` (fuel 4 always suffices, see the
termination lemmas).  `ptD` gives the prompt token estimate as a function of
the is-first-chunk flag, the chunk, and the previously completed sections
(the three prompt ingredients that vary during the loop). -/
def drvRun (gens : Nat → Nat → ModelOutcome δ)
    (ptD : Bool → PChunk → List String → Nat) (cap : Nat) :
    Nat → DrvState δ → List (PChunk × ProcResult δ) × DrvOutcome δ
  | fuel, st =>
    match st.queue with
    | [] => ([], .done st.results st.completed)
    | c :: rest =>
      match fuel with
      | 0 => ([], .outOfFuel)
      | fuel' + 1 =>
        match processLoop (gens st.calls) (fun ch => ptD (st.calls == 0) ch st.completed)
            cap 3 4 0 c with
        | none => ([], .aborted "retry loop out of fuel (unreachable)")
        | some (.raised m) => ([], .aborted m)
        | some (.ret r) =>
          let newQueue :=
            if r.success ∧ r.partFlag ∧ r.remainingChunk.isSome then
              (r.remainingChunk.getD c) :: rest
            else rest
          let st' : DrvState δ :=
            { queue := newQueue,
              results := st.results ++ [toCombResult c r],
              completed := st.completed ++ (if r.success then r.completedSections else []),
              calls := st.calls + 1 }
          let next := drvRun gens ptD cap fuel' st'
          ((c, r) :: next.1, next.2)

/-- The driver loop terminates: some fuel reaches a terminal outcome. -/
def DrvTerminates (gens : Nat → Nat → ModelOutcome δ)
    (ptD : Bool → PChunk → List String → Nat) (cap : Nat) (st : DrvState δ) : Prop :=
  ∃ fuel, (drvRun gens ptD cap fuel st).2 ≠ DrvOutcome.outOfFuel

/-- Termination measure for the driver loop: each queued chunk costs one plus
its section count, so popping a chunk and pushing a remainder with strictly
fewer sections strictly decreases the measure. -/
def drvMeasure (st : DrvState δ) : Nat :=
  (st.queue.map (fun c => c.sections.length + 1)).sum

/-- Invariant of the planner accumulator relative to the remaining boundary
list: an empty accumulator starts exactly at the next boundary (or at the end
of the document), a nonempty one starts no later than the next boundary. -/
def curOk (docLen : Nat) (bs : List Boundary) (cur : PlanCur) : Prop :=
  if cur.sections.isEmpty then
    (match bs with
     | [] => cur.startPos = docLen
     | b :: _ => cur.startPos = b.position)
  else
    (match bs with
     | [] => cur.startPos ≤ docLen
     | b :: _ => cur.startPos ≤ b.position)

/-- Budget invariant of the planner accumulator: empty accumulators carry zero
cost, single-section accumulators hold a non-oversized section, accumulators
with two or more sections are within both budgets. -/
def curBudget (avail maxOut : Nat) (cur : PlanCur) : Prop :=
  (cur.sections.isEmpty → cur.estimatedInputTokens = 0 ∧ cur.estimatedOutputX10 = 0) ∧
  (cur.sections.length = 1 → 10 * cur.estimatedInputTokens ≤ 8 * avail) ∧
  (2 ≤ cur.sections.length →
    cur.estimatedInputTokens ≤ avail ∧ cur.estimatedOutputX10 ≤ 10 * maxOut)

/-- The dedup winner the claim describes: an item-`k` candidate of maximal
confidence, earliest (by position) among the maximal ones. -/
def isBestFor (ms : List RawBoundary) (k : String) (b : RawBoundary) : Prop :=
  itemKey b = some k ∧ b ∈ ms ∧
  (∀ c ∈ ms, itemKey c = some k → c.confidenceX10 ≤ b.confidenceX10) ∧
  (∀ c ∈ ms, itemKey c = some k → c.confidenceX10 = b.confidenceX10 →
    b.position ≤ c.position)

/-- The item-`k` entry of the `seen_items` dictionary, as a list (empty when
the entry is absent or is a PART header). -/
def seenItemList (st : DedupState) (k : String) : List RawBoundary :=
  match lookupA st.seen k with
  | some b => if itemKey b = some k then [b] else []
  | none => []

/-- Invariant of the dedup loop relative to the processed prefix `P`. -/
def dedupInv (P : List RawBoundary) (st : DedupState) : Prop :=
  (∀ k b, lookupA st.seen k = some b →
      ((itemKey b = some k ∨ (itemKey b = none ∧ partTitle b = k)) ∧ b ∈ P)) ∧
  (∀ k, (∃ c ∈ P, itemKey c = some k) →
      ∃ b, lookupA st.seen k = some b ∧ isBestFor P k b) ∧
  (∀ k, st.filtered.filter (fun x => itemKey x == some k) = seenItemList st k) ∧
  st.filtered.Nodup ∧ (∀ x ∈ st.filtered, x ∈ P)

/-- Disjointness of PART titles from captured item numbers, as guaranteed by
the source's strategy table (PART headers match `PART\s+[IVX]+`, item numbers
match `\d+[A-C]?`). -/
def partsDisjoint (ms : List RawBoundary) : Prop :=
  ∀ bp ∈ ms, itemKey bp = none →
    ∀ bi ∈ ms, itemKey bi ≠ some (partTitle bp)

instance (ms : List RawBoundary) : Decidable (partsDisjoint ms) := by
  unfold partsDisjoint
  infer_instance

/-- Concrete strategy-match records used in the C3 analysis: an
`Item 1` header at position 100 matched by `standard_headers`, and an
`Item 1A` header at position 250 matched by both `bold_headers` and
`standard_headers` (an all-caps header matches both patterns). -/
def c3m1 : RawBoundary :=
  { strategy := "standard_headers", confidenceX10 := 7, position := 100,
    endPosition := 118, itemNumber := some "1", title := "Business" }

def c3m2 : RawBoundary :=
  { strategy := "bold_headers", confidenceX10 := 8, position := 250,
    endPosition := 272, itemNumber := some "1A", title := "RISK FACTORS" }

def c3m3 : RawBoundary :=
  { strategy := "standard_headers", confidenceX10 := 7, position := 250,
    endPosition := 272, itemNumber := some "1A", title := "RISK FACTORS" }

/-- The concatenation of the `sections` mappings of the successful results, in
order (the sequence of `categories[...][...] = ...` assignments the combiner
performs). -/
def okSections : List (CombResult δ) → List (String × δ)
  | [] => []
  | .ok s :: rest => s ++ okSections rest
  | .failed _ _ _ :: rest => okSections rest

/-- The failure records the combiner appends, in order. -/
def failedRecs : List (CombResult δ) → List FailedRec
  | [] => []
  | .ok _ :: rest => failedRecs rest
  | .failed cid err secs :: rest =>
    { chunkId := cid, error := err, sectionsAttempted := secs.map (·.itemNumber) } ::
      failedRecs rest

/-- Repeated Python dict assignment `d[k] = v` over a list of pairs. -/
def dictFold (d : List (String × δ)) (l : List (String × δ)) : List (String × δ) :=
  l.foldl (fun acc q => dictSet q.1 q.2 acc) d

/-- Whether a combiner input is a successful chunk result. -/
def isOkResult : CombResult δ → Bool
  | .ok _ => true
  | .failed _ _ _ => false

/-! # Theorems -/

/-! ## Dictionary helper lemmas -/

theorem lookupA_dictSet_self (k : String) (v : α) (d : List (String × α)) :
    lookupA (dictSet k v d) k = some v := by
  induction d with
  | nil => simp [dictSet, lookupA]
  | cons p rest ih =>
    by_cases h : p.1 = k
    · simp [dictSet, h, lookupA]
    · simp [dictSet, h, lookupA, ih]

theorem lookupA_dictSet_ne (k k' : String) (v : α) (d : List (String × α))
    (h : k' ≠ k) : lookupA (dictSet k v d) k' = lookupA d k' := by
  have hk : k ≠ k' := Ne.symm h
  induction d with
  | nil => simp [dictSet, lookupA, hk]
  | cons p rest ih =>
    rcases p with ⟨pk, pv⟩
    by_cases hp : pk = k
    · subst hp
      simp [dictSet, lookupA, hk]
    · simp [dictSet, hp, lookupA, ih]

/-! ## C10: the structure transformer is total and silently lossy -/

theorem transformSectionsList_enumFrom (n : Nat) (l : List PyVal) :
    transformSectionsList n l =
      (l.enumFrom n).filterMap (fun p =>
        match p.2 with
        | .pdict d => some (ensureSectionId p.1 d)
        | _ => none) := by
  induction l generalizing n with
  | nil => rfl
  | cons v rest ih =>
    cases v <;> simp [transformSectionsList, List.enumFrom, List.filterMap_cons, ih]

theorem transformSectionsList_length (n : Nat) (l : List PyVal) :
    (transformSectionsList n l).length = (l.filter isPyDict).length := by
  induction l generalizing n with
  | nil => rfl
  | cons v rest ih =>
    cases v <;> simp [transformSectionsList, List.filter_cons, isPyDict, ih]

theorem ensureSectionId_has_id (idx : Nat) (sec : PyDict) :
    (lookupA (ensureSectionId idx sec) "section_id").isSome := by
  unfold ensureSectionId
  by_cases h : (lookupA sec "section_id").isSome
  · simp [h]
  · simp only [h, if_false, Bool.false_eq_true]
    have : ∀ (d : PyDict) (v : PyVal), lookupA d "section_id" = none →
        lookupA (d ++ [("section_id", v)]) "section_id" = some v := by
      intro d v hv
      induction d with
      | nil => simp [lookupA]
      | cons p rest ih =>
        by_cases hp : p.1 = "section_id"
        · simp [lookupA, hp] at hv
        · simp [lookupA, hp] at hv ⊢
          exact ih hv
    rcases ho : lookupA sec "section_id" with _ | v
    · rw [this sec _ ho]; simp
    · simp [ho] at h

theorem transformSectionsList_ids (n : Nat) (l : List PyVal) :
    ∀ o ∈ transformSectionsList n l, (lookupA o "section_id").isSome := by
  induction l generalizing n with
  | nil => intro o ho; simp [transformSectionsList] at ho
  | cons v rest ih =>
    intro o ho
    cases v
    case pdict d =>
      simp only [transformSectionsList, List.mem_cons] at ho
      rcases ho with rfl | ho
      · exact ensureSectionId_has_id n d
      · exact ih (n+1) o ho
    all_goals simp only [transformSectionsList] at ho
    all_goals exact ih (n+1) o ho

theorem transformSectionsDict_map (d : PyDict) :
    transformSectionsDict d = d.map (fun kv =>
      match kv.2 with
      | .pdict dd => dictSet "section_id" (.pstr kv.1) dd
      | _ => [("section_id", .pstr kv.1), ("value", kv.2)]) := by
  induction d with
  | nil => rfl
  | cons kv rest ih =>
    rcases kv with ⟨k, v⟩
    cases v <;> simp [transformSectionsDict, ih]

theorem transformSectionsDict_ids (d : PyDict) :
    (transformSectionsDict d).map (fun o => lookupA o "section_id") =
      d.map (fun kv => some (.pstr kv.1)) := by
  induction d with
  | nil => rfl
  | cons kv rest ih =>
    rcases kv with ⟨k, v⟩
    cases v <;> simp [transformSectionsDict, lookupA, lookupA_dictSet_self, ih]

theorem transformPartsList_length (l : List PyVal) :
    (transformPartsList l).length = (l.filter isPyDict).length := by
  induction l with
  | nil => rfl
  | cons v rest ih =>
    cases v <;> simp [transformPartsList, List.filter_cons, isPyDict, ih]

/-- C10.  `transform_sections` is total and silently lossy: any value that is
neither a list nor a dict yields `[]` (as does `transform_parts`); a list
input keeps exactly its dict elements (indexed by their original enumerate
position, receiving `section_id = "section_<index>"` when missing, so every
output object carries a `section_id`); a dict input yields one object per key
whose `section_id` is that key; and `transform_parts` likewise drops every
non-dict element of a list input.  Totality of the Lean functions models the
absence of exceptions in the Python originals. -/
theorem claim_C10_transform_total_lossy :
    (∀ v : PyVal, isPyList v = false → isPyDict v = false →
        transformSections v = [] ∧ transformParts v = []) ∧
    (∀ l : List PyVal, transformSections (.plist l) =
        l.enum.filterMap (fun p =>
          match p.2 with
          | .pdict d => some (ensureSectionId p.1 d)
          | _ => none)) ∧
    (∀ l : List PyVal,
        (transformSections (.plist l)).length = (l.filter isPyDict).length) ∧
    (∀ l : List PyVal, ∀ o ∈ transformSections (.plist l),
        (lookupA o "section_id").isSome) ∧
    (∀ d : PyDict, (transformSections (.pdict d)).length = d.length ∧
        (transformSections (.pdict d)).map (fun o => lookupA o "section_id") =
          d.map (fun kv => some (.pstr kv.1))) ∧
    (∀ l : List PyVal,
        (transformParts (.plist l)).length = (l.filter isPyDict).length) := by
  refine ⟨?_, ?_, ?_, ?_, ?_, ?_⟩
  · intro v hl hd
    cases v <;> simp [isPyList, isPyDict] at hl hd ⊢ <;>
      simp [transformSections, transformParts]
  · intro l
    simpa [transformSections, List.enum] using transformSectionsList_enumFrom 0 l
  · intro l
    simpa [transformSections] using transformSectionsList_length 0 l
  · intro l o ho
    exact transformSectionsList_ids 0 l o (by simpa [transformSections] using ho)
  · intro d
    constructor
    · rw [show transformSections (.pdict d) = transformSectionsDict d from rfl,
        transformSectionsDict_map]
      simp
    · simpa [transformSections] using transformSectionsDict_ids d
  · intro l
    simpa [transformParts] using transformPartsList_length l

/-- Witness for C10 at concrete inputs. -/
theorem claim_C10_witness :
    transformSections (.pint 3) = [] ∧ transformParts (.pbool true) = [] ∧
    (transformSections
      (.plist [.pint 1, .pdict [("a", .pint 2)], .pstr "x"])).length = 1 := by
  have h := claim_C10_transform_total_lossy
  refine ⟨(h.1 (.pint 3) rfl rfl).1, (h.1 (.pbool true) rfl rfl).2, ?_⟩
  have h3 := h.2.2.1 [.pint 1, .pdict [("a", .pint 2)], .pstr "x"]
  simpa using h3

/-! ## Slice and tiling bridge lemmas -/

theorem pySlice_append (doc : List α) (s m e : Nat) (h1 : s ≤ m) (h2 : m ≤ e) :
    pySlice doc s m ++ pySlice doc m e = pySlice doc s e := by
  unfold pySlice
  have htake : doc.take m = (doc.take e).take m := by
    rw [List.take_take, min_eq_left h2]
  rw [htake]
  rw [List.drop_take]
  have hdrop : (doc.take e).drop m = ((doc.take e).drop s).drop (m - s) := by
    rw [List.drop_drop]
    congr 1
    omega
  rw [hdrop, List.take_append_drop]

theorem pySlice_self (doc : List α) (s : Nat) : pySlice doc s s = [] := by
  unfold pySlice
  rw [List.drop_take]
  simp

theorem tiles_nil (s e : Nat) : tiles s e [] = true ↔ s = e := by
  simp [tiles]

theorem tiles_cons (s e : Nat) (c : PlanChunk) (rest : List PlanChunk) :
    tiles s e (c :: rest) = true ↔
      c.startPos = s ∧ s ≤ c.endPos ∧ tiles c.endPos e rest = true := by
  simp [tiles, Nat.ble_eq, and_assoc]

theorem tiles_le (e : Nat) : ∀ (l : List PlanChunk) (s : Nat), tiles s e l = true → s ≤ e := by
  intro l
  induction l with
  | nil =>
    intro s h
    rw [tiles_nil] at h
    omega
  | cons c rest ih =>
    intro s h
    rw [tiles_cons] at h
    have := ih c.endPos h.2.2
    omega

theorem tiles_flatten (doc : List Char) (e : Nat) :
    ∀ (l : List PlanChunk) (s : Nat), tiles s e l = true →
      ((l.map (fun c => pySlice doc c.startPos c.endPos)).flatten) = pySlice doc s e := by
  intro l
  induction l with
  | nil =>
    intro s h
    rw [tiles_nil] at h
    subst h
    simp [pySlice_self]
  | cons c rest ih =>
    intro s h
    rw [tiles_cons] at h
    obtain ⟨hs, hle, ht⟩ := h
    have hend : c.endPos ≤ e := tiles_le e rest c.endPos ht
    simp only [List.map_cons, List.flatten_cons]
    rw [ih c.endPos ht, hs, pySlice_append doc s c.endPos e hle hend]

theorem concatContent_extract (doc : List Char) (chunks : List PlanChunk) :
    concatContent (extractContent doc chunks) =
      ((chunks.map (fun c => pySlice doc c.startPos c.endPos)).flatten) := by
  unfold concatContent extractContent
  rw [List.map_map]
  congr 1
  have : ∀ (l : List PlanChunk) (n : Nat),
      List.map (ExtractedChunk.content ∘ fun p : Nat × PlanChunk =>
        ({ chunkId := p.1 + 1, content := pySlice doc p.2.startPos p.2.endPos,
           sections := p.2.sections,
           estimatedInputTokens := p.2.estimatedInputTokens,
           estimatedOutputX10 := p.2.estimatedOutputX10,
           startPos := p.2.startPos, endPos := p.2.endPos } : ExtractedChunk))
        (l.enumFrom n) =
      List.map (fun c => pySlice doc c.startPos c.endPos) l := by
    intro l
    induction l with
    | nil => intro n; rfl
    | cons c rest ih => intro n; simp [List.enumFrom, ih]
  simpa [List.enum] using this chunks 0

/-! ## C1: reconstruction of the document from the planned chunks -/

theorem planAux_tiles (docLen avail maxOut : Nat) :
    ∀ (bs : List Boundary) (cur : PlanCur),
      List.Chain' (fun a b => a.position < b.position) bs →
      (∀ b ∈ bs, b.position ≤ docLen) →
      curOk docLen bs cur →
      tiles cur.startPos docLen (planAux docLen avail maxOut bs cur) = true := by
  intro bs
  induction bs with
  | nil =>
    intro cur _ _ hok
    by_cases he : cur.sections.isEmpty
    · simp only [curOk, he, if_true] at hok
      simp [planAux, he, tiles_nil, hok]
    · simp only [curOk, he, if_false, Bool.false_eq_true] at hok
      simp [planAux, he, tiles_cons, flushCur, tiles_nil, hok]
  | cons b rest ih =>
    intro cur hch hin hok
    have hbd : b.position ≤ docLen := hin b (List.mem_cons_self b rest)
    have hch' : List.Chain' (fun a b => a.position < b.position) rest := hch.tail
    have hin' : ∀ x ∈ rest, x.position ≤ docLen :=
      fun x hx => hin x (List.mem_cons_of_mem b hx)
    have hnp : b.position ≤ nextBoundaryPos docLen rest := by
      cases rest with
      | nil => simpa [nextBoundaryPos] using hbd
      | cons r2 rr =>
        have := (List.chain'_cons.mp hch).1
        simp only [nextBoundaryPos]
        omega
    have hstart : cur.startPos ≤ b.position := by
      by_cases he : cur.sections.isEmpty
      · simp only [curOk, he, if_true] at hok; omega
      · simpa only [curOk, he, if_false, Bool.false_eq_true] using hok
    have hokEmpty : curOk docLen rest
        { startPos := nextBoundaryPos docLen rest, sections := [],
          estimatedInputTokens := 0, estimatedOutputX10 := 0 } := by
      cases rest with
      | nil => simp [curOk, nextBoundaryPos]
      | cons r2 rr => simp [curOk, nextBoundaryPos]
    have hokFresh : ∀ (ns : PlanSection) (a o : Nat), curOk docLen rest
        { startPos := b.position, sections := [ns],
          estimatedInputTokens := a, estimatedOutputX10 := o } := by
      intro ns a o
      cases rest with
      | nil => simpa [curOk] using hbd
      | cons r2 rr =>
        have h1 := (List.chain'_cons.mp hch).1
        simp only [curOk, List.isEmpty_cons, if_false, Bool.false_eq_true]
        omega
    have hokApp : ∀ (ns : PlanSection) (a o : Nat), curOk docLen rest
        { cur with
          sections := cur.sections ++ [ns],
          estimatedInputTokens := a, estimatedOutputX10 := o } := by
      intro ns a o
      have hne : (cur.sections ++ [ns]).isEmpty = false := by
        cases cur.sections <;> simp [List.isEmpty]
      cases rest with
      | nil =>
        simp only [curOk, hne, if_false, Bool.false_eq_true]
        omega
      | cons r2 rr =>
        have h1 := (List.chain'_cons.mp hch).1
        simp only [curOk, hne, if_false, Bool.false_eq_true]
        omega
    simp only [planAux]
    by_cases hl : 10 * estimateTokenCount
        (pyLen docLen b.position (nextBoundaryPos docLen rest)) > 8 * avail
    · rw [if_pos hl]
      by_cases he : cur.sections.isEmpty
      · have hs : cur.startPos = b.position := by
          simpa only [curOk, he, if_true] using hok
        rw [if_pos he]
        simp only [List.cons_append, List.nil_append]
        rw [tiles_cons]
        refine ⟨by simp [hs], by simpa [hs] using hnp, ?_⟩
        have hrec := ih { startPos := nextBoundaryPos docLen rest, sections := [], estimatedInputTokens := 0, estimatedOutputX10 := 0 } hch' hin' hokEmpty
        simpa using hrec
      · rw [if_neg (by simpa using he)]
        simp only [List.cons_append, List.nil_append]
        rw [tiles_cons]
        refine ⟨rfl, by simpa [flushCur] using hstart, ?_⟩
        rw [tiles_cons]
        refine ⟨by simp [flushCur], by simpa [flushCur] using hnp, ?_⟩
        have hrec := ih { startPos := nextBoundaryPos docLen rest, sections := [], estimatedInputTokens := 0, estimatedOutputX10 := 0 } hch' hin' hokEmpty
        simpa [flushCur] using hrec
    · rw [if_neg hl]
      by_cases hx : cur.estimatedInputTokens + estimateTokenCount
            (pyLen docLen b.position (nextBoundaryPos docLen rest)) > avail ∨
          cur.estimatedOutputX10 + estimateTokenCount
            (pyLen docLen b.position (nextBoundaryPos docLen rest)) > 10 * maxOut
      · rw [if_pos hx]
        by_cases he : cur.sections.isEmpty
        · have hs : cur.startPos = b.position := by
            simpa only [curOk, he, if_true] using hok
          rw [if_pos he]
          simp only [List.nil_append]
          have hrec := ih { startPos := b.position, sections := [{ itemNumber := b.itemNumber, title := b.title, position := b.position, endPosition := nextBoundaryPos docLen rest, estimatedTokens := estimateTokenCount (pyLen docLen b.position (nextBoundaryPos docLen rest)), confidenceX10 := b.confidenceX10 }], estimatedInputTokens := estimateTokenCount (pyLen docLen b.position (nextBoundaryPos docLen rest)), estimatedOutputX10 := estimateTokenCount (pyLen docLen b.position (nextBoundaryPos docLen rest)) } hch' hin' (hokFresh _ _ _)
          rw [hs]
          simpa using hrec
        · rw [if_neg (by simpa using he)]
          simp only [List.cons_append, List.nil_append]
          rw [tiles_cons]
          refine ⟨rfl, by simpa [flushCur] using hstart, ?_⟩
          have hrec := ih { startPos := b.position, sections := [{ itemNumber := b.itemNumber, title := b.title, position := b.position, endPosition := nextBoundaryPos docLen rest, estimatedTokens := estimateTokenCount (pyLen docLen b.position (nextBoundaryPos docLen rest)), confidenceX10 := b.confidenceX10 }], estimatedInputTokens := estimateTokenCount (pyLen docLen b.position (nextBoundaryPos docLen rest)), estimatedOutputX10 := estimateTokenCount (pyLen docLen b.position (nextBoundaryPos docLen rest)) } hch' hin' (hokFresh _ _ _)
          simpa [flushCur] using hrec
      · rw [if_neg hx]
        have hrec := ih { cur with sections := cur.sections ++ [{ itemNumber := b.itemNumber, title := b.title, position := b.position, endPosition := nextBoundaryPos docLen rest, estimatedTokens := estimateTokenCount (pyLen docLen b.position (nextBoundaryPos docLen rest)), confidenceX10 := b.confidenceX10 }], estimatedInputTokens := cur.estimatedInputTokens + estimateTokenCount (pyLen docLen b.position (nextBoundaryPos docLen rest)), estimatedOutputX10 := cur.estimatedOutputX10 + estimateTokenCount (pyLen docLen b.position (nextBoundaryPos docLen rest)) } hch' hin' (hokApp _ _ _)
        simpa using hrec

theorem createProcessingChunks_tiles (docLen avail maxOut : Nat) (bs : List Boundary)
    (hne : bs ≠ [])
    (hch : List.Chain' (fun a b => a.position < b.position) bs)
    (hin : ∀ b ∈ bs, b.position ≤ docLen) :
    tiles (effectiveStart docLen avail maxOut bs) docLen
      (planAux docLen avail maxOut bs
        { startPos := 0, sections := [], estimatedInputTokens := 0, estimatedOutputX10 := 0 })
      = true := by
  rcases bs with _ | ⟨b, rest⟩
  · exact absurd rfl hne
  have hbd : b.position ≤ docLen := hin b (List.mem_cons_self b rest)
  have hch' : List.Chain' (fun a b => a.position < b.position) rest := hch.tail
  have hin' : ∀ x ∈ rest, x.position ≤ docLen :=
    fun x hx => hin x (List.mem_cons_of_mem b hx)
  have hnp : b.position ≤ nextBoundaryPos docLen rest := by
    cases rest with
    | nil => simpa [nextBoundaryPos] using hbd
    | cons r2 rr =>
      have := (List.chain'_cons.mp hch).1
      simp only [nextBoundaryPos]
      omega
  have hokEmpty : curOk docLen rest
      { startPos := nextBoundaryPos docLen rest, sections := [],
        estimatedInputTokens := 0, estimatedOutputX10 := 0 } := by
    cases rest with
    | nil => simp [curOk, nextBoundaryPos]
    | cons r2 rr => simp [curOk, nextBoundaryPos]
  have hokFresh : ∀ (ns : PlanSection) (a o : Nat), curOk docLen rest
      { startPos := b.position, sections := [ns],
        estimatedInputTokens := a, estimatedOutputX10 := o } := by
    intro ns a o
    cases rest with
    | nil => simpa [curOk] using hbd
    | cons r2 rr =>
      have h1 := (List.chain'_cons.mp hch).1
      simp only [curOk, List.isEmpty_cons, if_false, Bool.false_eq_true]
      omega
  have hokZero : ∀ (ns : PlanSection) (a o : Nat), curOk docLen rest
      { startPos := 0, sections := [] ++ [ns],
        estimatedInputTokens := a, estimatedOutputX10 := o } := by
    intro ns a o
    cases rest with
    | nil => simp [curOk]
    | cons r2 rr =>
      have h1 := (List.chain'_cons.mp hch).1
      simp only [curOk, List.nil_append, List.isEmpty_cons, if_false, Bool.false_eq_true]
      omega
  simp only [planAux, effectiveStart]
  by_cases hl : 10 * estimateTokenCount
      (pyLen docLen b.position (nextBoundaryPos docLen rest)) > 8 * avail
  · rw [if_pos hl, if_pos (Or.inl hl)]
    simp only [List.isEmpty_nil, if_true, List.cons_append, List.nil_append]
    rw [tiles_cons]
    refine ⟨by simp, by simpa using hnp, ?_⟩
    have hrec := planAux_tiles docLen avail maxOut rest
      { startPos := nextBoundaryPos docLen rest, sections := [],
        estimatedInputTokens := 0, estimatedOutputX10 := 0 } hch' hin' hokEmpty
    simpa using hrec
  · rw [if_neg hl]
    by_cases hx : (0 : Nat) + estimateTokenCount
          (pyLen docLen b.position (nextBoundaryPos docLen rest)) > avail ∨
        (0 : Nat) + estimateTokenCount
          (pyLen docLen b.position (nextBoundaryPos docLen rest)) > 10 * maxOut
    · rw [if_pos hx]
      rw [if_pos (by omega : 10 * estimateTokenCount
          (pyLen docLen b.position (nextBoundaryPos docLen rest)) > 8 * avail ∨
        estimateTokenCount (pyLen docLen b.position (nextBoundaryPos docLen rest)) > avail ∨
        estimateTokenCount (pyLen docLen b.position (nextBoundaryPos docLen rest)) > 10 * maxOut)]
      simp only [List.isEmpty_nil, if_true, List.nil_append]
      have hrec := planAux_tiles docLen avail maxOut rest
        { startPos := b.position,
          sections := [{ itemNumber := b.itemNumber, title := b.title, position := b.position, endPosition := nextBoundaryPos docLen rest, estimatedTokens := estimateTokenCount (pyLen docLen b.position (nextBoundaryPos docLen rest)), confidenceX10 := b.confidenceX10 }],
          estimatedInputTokens := estimateTokenCount (pyLen docLen b.position (nextBoundaryPos docLen rest)),
          estimatedOutputX10 := estimateTokenCount (pyLen docLen b.position (nextBoundaryPos docLen rest)) }
        hch' hin' (hokFresh _ _ _)
      simpa using hrec
    · rw [if_neg hx]
      rw [if_neg (by omega : ¬ (10 * estimateTokenCount
          (pyLen docLen b.position (nextBoundaryPos docLen rest)) > 8 * avail ∨
        estimateTokenCount (pyLen docLen b.position (nextBoundaryPos docLen rest)) > avail ∨
        estimateTokenCount (pyLen docLen b.position (nextBoundaryPos docLen rest)) > 10 * maxOut))]
      have hrec := planAux_tiles docLen avail maxOut rest
        { startPos := 0,
          sections := [] ++ [{ itemNumber := b.itemNumber, title := b.title, position := b.position, endPosition := nextBoundaryPos docLen rest, estimatedTokens := estimateTokenCount (pyLen docLen b.position (nextBoundaryPos docLen rest)), confidenceX10 := b.confidenceX10 }],
          estimatedInputTokens := 0 + estimateTokenCount (pyLen docLen b.position (nextBoundaryPos docLen rest)),
          estimatedOutputX10 := 0 + estimateTokenCount (pyLen docLen b.position (nextBoundaryPos docLen rest)) }
        hch' hin' (by simpa using hokZero _ _ _)
      simpa using hrec

/-- C1 (amended).  For a position-sorted, in-range, nonempty boundary list,
the planned chunks tile the document contiguously — no gaps and no overlaps —
from `effectiveStart` to the end, and concatenating the extracted chunk
contents in order reproduces exactly the document suffix from
`effectiveStart`.  `effectiveStart` is 0 — byte-for-byte reconstruction —
unless the first section is oversized or alone exceeds a token budget, in
which case the text before the first boundary (and nothing else) is dropped. -/
theorem claim_C1_reconstruction_amended (doc : List Char) (bs : List Boundary)
    (maxIn maxOut sysTokens : Nat)
    (hne : bs ≠ [])
    (hch : List.Chain' (fun a b => a.position < b.position) bs)
    (hin : ∀ b ∈ bs, b.position ≤ doc.length) :
    tiles (effectiveStart doc.length (availableTokens maxIn sysTokens) maxOut bs)
        doc.length (createProcessingChunks doc.length bs maxIn maxOut sysTokens) = true ∧
    concatContent (extractSectionsDynamic doc bs maxIn maxOut sysTokens) =
      doc.drop (effectiveStart doc.length (availableTokens maxIn sysTokens) maxOut bs) ∧
    (effectiveStart doc.length (availableTokens maxIn sysTokens) maxOut bs = 0 →
      concatContent (extractSectionsDynamic doc bs maxIn maxOut sysTokens) = doc) := by
  have h1 : tiles (effectiveStart doc.length (availableTokens maxIn sysTokens) maxOut bs)
      doc.length (createProcessingChunks doc.length bs maxIn maxOut sysTokens) = true := by
    unfold createProcessingChunks
    exact createProcessingChunks_tiles doc.length (availableTokens maxIn sysTokens)
      maxOut bs hne hch hin
  have h2 : concatContent (extractSectionsDynamic doc bs maxIn maxOut sysTokens) =
      doc.drop (effectiveStart doc.length (availableTokens maxIn sysTokens) maxOut bs) := by
    unfold extractSectionsDynamic
    rw [concatContent_extract]
    rw [tiles_flatten doc doc.length _ _ h1]
    unfold pySlice
    rw [List.take_length]
  exact ⟨h1, h2, fun h0 => by rw [h2, h0, List.drop_zero]⟩


/-- C1 counterexample.  With the source's default budgets, a document whose
single detected section alone exceeds the output-token budget and that has
text before the first boundary loses that prefix: the planner starts the
first chunk at the boundary (position 8), so the concatenated chunk contents
are `doc[8:]`, not the document.  (Claimed: reconstruction is exact for every
document with at least one boundary.) -/
theorem claim_C1_counterexample :
    concatContent (extractSectionsDynamic (List.replicate 320812 'a')
        [{ position := 8, itemNumber := some "1", title := "Business", confidenceX10 := 7 }]
        750000 8000 2304) ≠ List.replicate 320812 'a' := by
  have hchunks : createProcessingChunks 320812
      [{ position := 8, itemNumber := some "1", title := "Business", confidenceX10 := 7 }]
      750000 8000 2304 =
      [{ startPos := 8, endPos := 320812,
         sections := [{ itemNumber := some "1", title := "Business", position := 8,
                        endPosition := 320812, estimatedTokens := 80201, confidenceX10 := 7 }],
         estimatedInputTokens := 80201, estimatedOutputX10 := 80201 }] := by
    decide
  have hval : concatContent (extractSectionsDynamic (List.replicate 320812 'a')
      [{ position := 8, itemNumber := some "1", title := "Business", confidenceX10 := 7 }]
      750000 8000 2304) = List.replicate 320804 'a' := by
    unfold extractSectionsDynamic
    rw [List.length_replicate, hchunks]
    simp only [extractContent, concatContent, List.enum, List.enumFrom, List.map_cons,
      List.map_nil, List.flatten_cons, List.flatten_nil, List.append_nil]
    unfold pySlice
    rw [List.take_replicate, Nat.min_self, List.drop_replicate]
  intro h
  rw [hval] at h
  have hlen := congrArg List.length h
  rw [List.length_replicate, List.length_replicate] at hlen
  omega

/-- Witness for C1 at a small concrete document where the first section is
well within budget: reconstruction is exact. -/
theorem claim_C1_witness :
    concatContent (extractSectionsDynamic (List.replicate 100 'a')
        [{ position := 0, itemNumber := some "1", title := "Business", confidenceX10 := 7 },
         { position := 40, itemNumber := some "1A", title := "Risk Factors", confidenceX10 := 7 }]
        750000 8000 2304) = List.replicate 100 'a' := by
  have h := claim_C1_reconstruction_amended (List.replicate 100 'a')
    [{ position := 0, itemNumber := some "1", title := "Business", confidenceX10 := 7 },
     { position := 40, itemNumber := some "1A", title := "Risk Factors", confidenceX10 := 7 }]
    750000 8000 2304 (by simp)
    (by rw [List.chain'_cons]; exact ⟨by norm_num, List.chain'_singleton _⟩)
    (by decide)
  exact h.2.2 (by decide)

/-! ## C5: budget respect -/

theorem planAux_budget (docLen avail maxOut : Nat) :
    ∀ (bs : List Boundary) (cur : PlanCur), curBudget avail maxOut cur →
      ∀ c ∈ planAux docLen avail maxOut bs cur,
        (c.estimatedInputTokens > avail →
          c.sections.length = 1 ∧ 10 * c.estimatedInputTokens > 8 * avail) ∧
        (c.estimatedOutputX10 > 10 * maxOut → c.sections.length = 1) := by
  intro bs
  induction bs with
  | nil =>
    intro cur hcb c hc
    by_cases he : cur.sections.isEmpty
    · simp [planAux, he] at hc
    · simp only [planAux, he, if_false, Bool.false_eq_true, List.mem_singleton] at hc
      subst hc
      obtain ⟨h0, h1, h2⟩ := hcb
      rcases hsec : cur.sections with _ | ⟨s, srest⟩
      · rw [hsec] at he; simp at he
      · rcases srest with _ | ⟨s2, srest2⟩
        · have := h1 (by simp [hsec])
          constructor
          · intro hgt
            simp only [flushCur] at hgt
            omega
          · intro _
            simp [flushCur, hsec]
        · have := h2 (by rw [hsec]; simp only [List.length_cons]; omega)
          constructor
          · intro hgt
            simp only [flushCur] at hgt
            omega
          · intro hgt
            simp only [flushCur] at hgt
            omega
  | cons b rest ih =>
    intro cur hcb c hc
    simp only [planAux] at hc
    by_cases hl : 10 * estimateTokenCount
        (pyLen docLen b.position (nextBoundaryPos docLen rest)) > 8 * avail
    · rw [if_pos hl] at hc
      have hEmptyCb : curBudget avail maxOut
          { startPos := nextBoundaryPos docLen rest, sections := [],
            estimatedInputTokens := 0, estimatedOutputX10 := 0 } := by
        refine ⟨fun _ => ⟨rfl, rfl⟩, fun h => by simp at h, fun h => by simp at h⟩
      have hLarge :
          (fun c : PlanChunk =>
            (c.estimatedInputTokens > avail →
              c.sections.length = 1 ∧ 10 * c.estimatedInputTokens > 8 * avail) ∧
            (c.estimatedOutputX10 > 10 * maxOut → c.sections.length = 1))
          { startPos := b.position, endPos := nextBoundaryPos docLen rest,
            sections := [{ itemNumber := b.itemNumber, title := b.title ++ " [LARGE SECTION]", position := b.position, endPosition := nextBoundaryPos docLen rest, estimatedTokens := estimateTokenCount (pyLen docLen b.position (nextBoundaryPos docLen rest)), confidenceX10 := b.confidenceX10 }],
            estimatedInputTokens := estimateTokenCount (pyLen docLen b.position (nextBoundaryPos docLen rest)),
            estimatedOutputX10 := estimateTokenCount (pyLen docLen b.position (nextBoundaryPos docLen rest)) } := by
        constructor
        · intro _
          exact ⟨by simp, by simpa using hl⟩
        · intro _
          simp
      by_cases he : cur.sections.isEmpty
      · rw [if_pos he] at hc
        simp only [List.cons_append, List.nil_append, List.mem_cons] at hc
        rcases hc with rfl | hc
        · exact hLarge
        · exact ih _ hEmptyCb c hc
      · rw [if_neg (by simpa using he)] at hc
        simp only [List.cons_append, List.nil_append, List.mem_cons] at hc
        rcases hc with rfl | hc
        · -- flushed accumulator
          obtain ⟨h0, h1, h2⟩ := hcb
          rcases hsec : cur.sections with _ | ⟨s, srest⟩
          · rw [hsec] at he; simp at he
          · rcases srest with _ | ⟨s2, srest2⟩
            · have := h1 (by simp [hsec])
              exact ⟨fun hgt => by simp only [flushCur] at hgt; omega,
                     fun _ => by simp [flushCur, hsec]⟩
            · have := h2 (by rw [hsec]; simp only [List.length_cons]; omega)
              exact ⟨fun hgt => by simp only [flushCur] at hgt; omega,
                     fun hgt => by simp only [flushCur] at hgt; omega⟩
        · rcases hc with rfl | hc
          · exact hLarge
          · exact ih _ hEmptyCb c hc
    · rw [if_neg hl] at hc
      by_cases hx : cur.estimatedInputTokens + estimateTokenCount
            (pyLen docLen b.position (nextBoundaryPos docLen rest)) > avail ∨
          cur.estimatedOutputX10 + estimateTokenCount
            (pyLen docLen b.position (nextBoundaryPos docLen rest)) > 10 * maxOut
      · rw [if_pos hx] at hc
        have hFreshCb : curBudget avail maxOut
            { startPos := b.position,
              sections := [{ itemNumber := b.itemNumber, title := b.title, position := b.position, endPosition := nextBoundaryPos docLen rest, estimatedTokens := estimateTokenCount (pyLen docLen b.position (nextBoundaryPos docLen rest)), confidenceX10 := b.confidenceX10 }],
              estimatedInputTokens := estimateTokenCount (pyLen docLen b.position (nextBoundaryPos docLen rest)),
              estimatedOutputX10 := estimateTokenCount (pyLen docLen b.position (nextBoundaryPos docLen rest)) } := by
          refine ⟨fun h => by simp at h, fun _ => ?_, fun h => by simp at h⟩
          show 10 * estimateTokenCount (pyLen docLen b.position (nextBoundaryPos docLen rest)) ≤ 8 * avail
          omega
        by_cases he : cur.sections.isEmpty
        · rw [if_pos he] at hc
          simp only [List.nil_append] at hc
          exact ih _ hFreshCb c hc
        · rw [if_neg (by simpa using he)] at hc
          simp only [List.cons_append, List.nil_append, List.mem_cons] at hc
          rcases hc with rfl | hc
          · obtain ⟨h0, h1, h2⟩ := hcb
            rcases hsec : cur.sections with _ | ⟨s, srest⟩
            · rw [hsec] at he; simp at he
            · rcases srest with _ | ⟨s2, srest2⟩
              · have := h1 (by simp [hsec])
                exact ⟨fun hgt => by simp only [flushCur] at hgt; omega,
                       fun _ => by simp [flushCur, hsec]⟩
              · have := h2 (by rw [hsec]; simp only [List.length_cons]; omega)
                exact ⟨fun hgt => by simp only [flushCur] at hgt; omega,
                       fun hgt => by simp only [flushCur] at hgt; omega⟩
          · exact ih _ hFreshCb c hc
      · rw [if_neg hx] at hc
        have hAppCb : curBudget avail maxOut
            { cur with
              sections := cur.sections ++ [{ itemNumber := b.itemNumber, title := b.title, position := b.position, endPosition := nextBoundaryPos docLen rest, estimatedTokens := estimateTokenCount (pyLen docLen b.position (nextBoundaryPos docLen rest)), confidenceX10 := b.confidenceX10 }],
              estimatedInputTokens := cur.estimatedInputTokens + estimateTokenCount (pyLen docLen b.position (nextBoundaryPos docLen rest)),
              estimatedOutputX10 := cur.estimatedOutputX10 + estimateTokenCount (pyLen docLen b.position (nextBoundaryPos docLen rest)) } := by
          obtain ⟨h0, h1, h2⟩ := hcb
          refine ⟨fun h => ?_, fun h => ?_, fun h => ?_⟩
          · simp at h
          · simp at h
            obtain ⟨hz1, hz2⟩ := h0 (by simp [h])
            show 10 * (cur.estimatedInputTokens + estimateTokenCount
              (pyLen docLen b.position (nextBoundaryPos docLen rest))) ≤ 8 * avail
            omega
          · constructor
            · show cur.estimatedInputTokens + estimateTokenCount
                (pyLen docLen b.position (nextBoundaryPos docLen rest)) ≤ avail
              omega
            · show cur.estimatedOutputX10 + estimateTokenCount
                (pyLen docLen b.position (nextBoundaryPos docLen rest)) ≤ 10 * maxOut
              omega
        exact ih _ hAppCb c hc

/-- C5 (amended).  Every planned chunk that exceeds the available input-token
budget is a dedicated oversized-section chunk: it holds exactly one section
whose estimate exceeds 0.8 of the available budget; equivalently, all other
chunks satisfy `estimated_input_tokens ≤ available budget`.  The output
budget, however, is only guaranteed for chunks with two or more sections:
every chunk whose estimated output exceeds the output budget is a
single-section chunk (the flush-before-accumulate rule protects only a
nonempty accumulator). -/
theorem claim_C5_budget_amended (docLen maxIn maxOut sysTokens : Nat)
    (bs : List Boundary) :
    ∀ c ∈ createProcessingChunks docLen bs maxIn maxOut sysTokens,
      (c.estimatedInputTokens > availableTokens maxIn sysTokens →
        c.sections.length = 1 ∧
          10 * c.estimatedInputTokens > 8 * availableTokens maxIn sysTokens) ∧
      (c.estimatedOutputX10 > 10 * maxOut → c.sections.length = 1) := by
  intro c hc
  refine planAux_budget docLen (availableTokens maxIn sysTokens) maxOut bs
    { startPos := 0, sections := [], estimatedInputTokens := 0, estimatedOutputX10 := 0 }
    ⟨fun _ => ⟨rfl, rfl⟩, fun h => by simp at h, fun h => by simp at h⟩ c hc

/-- C5 counterexample.  With the default budgets, a single 400000-character
section produces one chunk that is not oversized (its estimate 100000 is well
under 0.8 of the available budget, so the input clause holds), yet its
estimated output is 10000 tokens (`estimatedOutputX10 = 100000`), exceeding
the 8000 output-token budget — refuting the claim's parenthetical that
non-oversized chunks keep the running estimated output within budget. -/
theorem claim_C5_counterexample :
    createProcessingChunks 400000
        [{ position := 0, itemNumber := some "1", title := "Business", confidenceX10 := 7 }]
        750000 8000 2304 =
      [{ startPos := 0, endPos := 400000,
         sections := [{ itemNumber := some "1", title := "Business", position := 0,
                        endPosition := 400000, estimatedTokens := 100000, confidenceX10 := 7 }],
         estimatedInputTokens := 100000, estimatedOutputX10 := 100000 }] ∧
    10 * 100000 ≤ 8 * availableTokens 750000 2304 ∧
    (100000 : Nat) > 10 * 8000 := by
  refine ⟨by decide, by decide, by decide⟩

/-- Witness for C5 at a concrete oversized section: the implications'
antecedents hold and the chunk is indeed a dedicated single-section chunk. -/
theorem claim_C5_witness :
    ({ startPos := 0, endPos := 4000000,
       sections := [{ itemNumber := some "1", title := "Business [LARGE SECTION]",
                      position := 0, endPosition := 4000000,
                      estimatedTokens := 1000000, confidenceX10 := 7 }],
       estimatedInputTokens := 1000000, estimatedOutputX10 := 1000000 } : PlanChunk).sections.length = 1 ∧
    10 * (1000000 : Nat) > 8 * availableTokens 750000 2304 := by
  have h := claim_C5_budget_amended 4000000 750000 8000 2304
    [{ position := 0, itemNumber := some "1", title := "Business", confidenceX10 := 7 }]
    { startPos := 0, endPos := 4000000,
      sections := [{ itemNumber := some "1", title := "Business [LARGE SECTION]",
                     position := 0, endPosition := 4000000,
                     estimatedTokens := 1000000, confidenceX10 := 7 }],
      estimatedInputTokens := 1000000, estimatedOutputX10 := 1000000 }
    (by decide)
  exact h.1 (by decide)

/-! ## C3: boundary dedup -/

theorem filter_erase_of_not {α : Type} [DecidableEq α] (l : List α) (a : α)
    (p : α → Bool) (hnp : p a = false) : (l.erase a).filter p = l.filter p := by
  induction l with
  | nil => rfl
  | cons x t ih =>
    by_cases hx : x = a
    · subst hx
      rw [List.erase_cons_head]
      simp [List.filter_cons, hnp]
    · rw [List.erase_cons_tail (by simpa using hx)]
      simp only [List.filter_cons]
      by_cases hp : p x = true
      · simp [hp, ih]
      · simp [hp, ih]

theorem filter_erase_self {α : Type} [DecidableEq α] (l : List α) (a : α)
    (p : α → Bool) (h : l.filter p = [a]) : (l.erase a).filter p = [] := by
  induction l with
  | nil => simp at h
  | cons x t ih =>
    by_cases hx : x = a
    · subst hx
      rw [List.erase_cons_head]
      rw [List.filter_cons] at h
      by_cases hp : p x = true
      · rw [if_pos hp] at h
        injection h with h1 h2
      · rw [if_neg hp] at h
        have hmem : x ∈ t.filter p := by rw [h]; exact List.mem_singleton_self x
        exact absurd (List.of_mem_filter hmem) hp
    · rw [List.erase_cons_tail (by simpa using hx)]
      rw [List.filter_cons] at h
      rw [List.filter_cons]
      by_cases hp : p x = true
      · rw [if_pos hp] at h
        injection h with h1 h2
        exact absurd h1 hx
      · rw [if_neg hp] at h
        rw [if_neg hp]
        exact ih h

theorem dedupStep_inv (doc : List Char) (l P : List RawBoundary) (b : RawBoundary)
    (st : DedupState)
    (hPl : ∀ x ∈ P, x ∈ l) (hbl : b ∈ l)
    (hdisj : partsDisjoint l)
    (hfresh : b ∉ P)
    (hpos : ∀ x ∈ P, x.position ≤ b.position)
    (hinv : dedupInv P st) :
    dedupInv (P ++ [b]) (dedupStep doc st b) := by
  obtain ⟨hA, hB, hC, hD, hE⟩ := hinv
  cases hk : itemKey b with
  | some k0 =>
    simp only [dedupStep, hk]
    cases hs : lookupA st.seen k0 with
    | none =>
      simp only [hs]
      refine ⟨?_, ?_, ?_, ?_, ?_⟩
      · intro k bb hbb
        by_cases hkk : k = k0
        · subst hkk
          rw [lookupA_dictSet_self] at hbb
          injection hbb with hbb
          subst hbb
          exact ⟨Or.inl hk, List.mem_append_right _ (List.mem_singleton_self b)⟩
        · rw [lookupA_dictSet_ne _ _ _ _ (fun h => hkk h)] at hbb
          obtain ⟨h1, h2⟩ := hA k bb hbb
          exact ⟨h1, List.mem_append_left _ h2⟩
      · intro k hex
        obtain ⟨c, hc, hck⟩ := hex
        by_cases hkk : k = k0
        · subst hkk
          refine ⟨b, lookupA_dictSet_self _ _ _, hk,
            List.mem_append_right _ (List.mem_singleton_self b), ?_, ?_⟩
          · intro c' hc' hck'
            rcases List.mem_append.mp hc' with hc'P | hc'b
            · obtain ⟨bb, hbb, _⟩ := hB k ⟨c', hc'P, hck'⟩
              rw [hs] at hbb
              cases hbb
            · rw [List.mem_singleton.mp hc'b]
          · intro c' hc' hck' _
            rcases List.mem_append.mp hc' with hc'P | hc'b
            · obtain ⟨bb, hbb, _⟩ := hB k ⟨c', hc'P, hck'⟩
              rw [hs] at hbb
              cases hbb
            · rw [List.mem_singleton.mp hc'b]
        · have hcP : c ∈ P := by
            rcases List.mem_append.mp hc with h | h
            · exact h
            · rw [List.mem_singleton.mp h] at hck
              rw [hck] at hk
              injection hk with hk
              exact absurd hk hkk
          obtain ⟨bb, hlook, hb1, hb2, hb3, hb4⟩ := hB k ⟨c, hcP, hck⟩
          refine ⟨bb, ?_, hb1, List.mem_append_left _ hb2, ?_, ?_⟩
          · rw [lookupA_dictSet_ne _ _ _ _ (fun h => hkk h)]
            exact hlook
          · intro c' hc' hck'
            rcases List.mem_append.mp hc' with h | h
            · exact hb3 c' h hck'
            · rw [List.mem_singleton.mp h] at hck'
              rw [hck'] at hk
              injection hk with hk
              exact absurd hk hkk
          · intro c' hc' hck' hcf
            rcases List.mem_append.mp hc' with h | h
            · exact hb4 c' h hck' hcf
            · rw [List.mem_singleton.mp h] at hck'
              rw [hck'] at hk
              injection hk with hk
              exact absurd hk hkk
      · intro k
        rw [List.filter_append]
        by_cases hkk : k = k0
        · subst hkk
          have hold : st.filtered.filter (fun x => itemKey x == some k) = [] := by
            rw [hC k]
            simp [seenItemList, hs]
          rw [hold]
          simp only [List.nil_append, List.filter_cons, List.filter_nil]
          rw [show (itemKey b == some k) = true by simp [hk]]
          simp [seenItemList, lookupA_dictSet_self, hk]
        · have hbf : (itemKey b == some k) = false := by
            simp only [beq_eq_false_iff_ne, ne_eq]
            rw [hk]
            intro h
            injection h with h
            exact hkk h.symm
          simp only [List.filter_cons, hbf, List.filter_nil, List.append_nil]
          rw [hC k]
          simp [seenItemList, lookupA_dictSet_ne k0 k b st.seen (fun h => hkk h)]
      · rw [List.nodup_append]
        refine ⟨hD, List.nodup_singleton b, ?_⟩
        intro x hx hxb
        rw [List.mem_singleton.mp hxb] at hx
        exact hfresh (hE b hx)
      · intro x hx
        rcases List.mem_append.mp hx with h | h
        · exact List.mem_append_left _ (hE x h)
        · exact List.mem_append_right _ h
    | some old =>
      simp only [hs]
      have hAo := hA k0 old hs
      have hko : itemKey old = some k0 := by
        rcases hAo.1 with h | ⟨hnone, hpt⟩
        · exact h
        · exact absurd (by rw [hpt]; exact hk)
            (hdisj old (hPl _ hAo.2) hnone b hbl)
      obtain ⟨bb, hlook, hbest⟩ := hB k0 ⟨old, hAo.2, hko⟩
      rw [hs] at hlook
      injection hlook with hlook
      subst hlook
      obtain ⟨hb1, hb2, hb3, hb4⟩ := hbest
      by_cases hconf : b.confidenceX10 > old.confidenceX10
      · rw [if_pos hconf]
        refine ⟨?_, ?_, ?_, ?_, ?_⟩
        · intro k bbx hbb
          by_cases hkk : k = k0
          · subst hkk
            rw [lookupA_dictSet_self] at hbb
            injection hbb with hbb
            subst hbb
            exact ⟨Or.inl hk, List.mem_append_right _ (List.mem_singleton_self b)⟩
          · rw [lookupA_dictSet_ne _ _ _ _ (fun h => hkk h)] at hbb
            obtain ⟨h1, h2⟩ := hA k bbx hbb
            exact ⟨h1, List.mem_append_left _ h2⟩
        · intro k hex
          by_cases hkk : k = k0
          · subst hkk
            refine ⟨b, lookupA_dictSet_self _ _ _, hk,
              List.mem_append_right _ (List.mem_singleton_self b), ?_, ?_⟩
            · intro c' hc' hck'
              rcases List.mem_append.mp hc' with h | h
              · have := hb3 c' h hck'
                omega
              · rw [List.mem_singleton.mp h]
            · intro c' hc' hck' hcf
              rcases List.mem_append.mp hc' with h | h
              · have := hb3 c' h hck'
                omega
              · rw [List.mem_singleton.mp h]
          · obtain ⟨c, hc, hck⟩ := hex
            have hcP : c ∈ P := by
              rcases List.mem_append.mp hc with h | h
              · exact h
              · rw [List.mem_singleton.mp h] at hck
                rw [hck] at hk
                injection hk with hk
                exact absurd hk hkk
            obtain ⟨bb2, hlook2, hc1, hc2, hc3, hc4⟩ := hB k ⟨c, hcP, hck⟩
            refine ⟨bb2, ?_, hc1, List.mem_append_left _ hc2, ?_, ?_⟩
            · rw [lookupA_dictSet_ne _ _ _ _ (fun h => hkk h)]
              exact hlook2
            · intro c' hc' hck'
              rcases List.mem_append.mp hc' with h | h
              · exact hc3 c' h hck'
              · rw [List.mem_singleton.mp h] at hck'
                rw [hck'] at hk
                injection hk with hk
                exact absurd hk hkk
            · intro c' hc' hck' hcf
              rcases List.mem_append.mp hc' with h | h
              · exact hc4 c' h hck' hcf
              · rw [List.mem_singleton.mp h] at hck'
                rw [hck'] at hk
                injection hk with hk
                exact absurd hk hkk
        · intro k
          rw [List.filter_append]
          by_cases hkk : k = k0
          · subst hkk
            have hold : st.filtered.filter (fun x => itemKey x == some k) = [old] := by
              rw [hC k]
              simp [seenItemList, hs, hko]
            have herase : (st.filtered.erase old).filter
                (fun x => itemKey x == some k) = [] :=
              filter_erase_self _ _ _ hold
            rw [herase]
            simp only [List.nil_append, List.filter_cons, List.filter_nil]
            rw [show (itemKey b == some k) = true by simp [hk]]
            simp [seenItemList, lookupA_dictSet_self, hk]
          · have hbf : (itemKey b == some k) = false := by
              simp only [beq_eq_false_iff_ne, ne_eq]
              rw [hk]
              intro h
              injection h with h
              exact hkk h.symm
            have holdf : (itemKey old == some k) = false := by
              simp only [beq_eq_false_iff_ne, ne_eq]
              rw [hko]
              intro h
              injection h with h
              exact hkk h.symm
            rw [filter_erase_of_not st.filtered old (fun x => itemKey x == some k) holdf]
            simp only [List.filter_cons, hbf, List.filter_nil, List.append_nil]
            rw [hC k]
            simp [seenItemList, lookupA_dictSet_ne k0 k b st.seen (fun h => hkk h)]
        · rw [List.nodup_append]
          refine ⟨hD.erase old, List.nodup_singleton b, ?_⟩
          intro x hx hxb
          rw [List.mem_singleton.mp hxb] at hx
          exact hfresh (hE b (List.mem_of_mem_erase hx))
        · intro x hx
          rcases List.mem_append.mp hx with h | h
          · exact List.mem_append_left _ (hE x (List.mem_of_mem_erase h))
          · exact List.mem_append_right _ h
      · rw [if_neg hconf]
        refine ⟨?_, ?_, ?_, hD, ?_⟩
        · intro k bbx hbb
          obtain ⟨h1, h2⟩ := hA k bbx hbb
          exact ⟨h1, List.mem_append_left _ h2⟩
        · intro k hex
          by_cases hkk : k = k0
          · subst hkk
            refine ⟨old, hs, hko, List.mem_append_left _ hb2, ?_, ?_⟩
            · intro c' hc' hck'
              rcases List.mem_append.mp hc' with h | h
              · exact hb3 c' h hck'
              · rw [List.mem_singleton.mp h]
                omega
            · intro c' hc' hck' hcf
              rcases List.mem_append.mp hc' with h | h
              · exact hb4 c' h hck' hcf
              · rw [List.mem_singleton.mp h]
                exact hpos old hb2
          · obtain ⟨c, hc, hck⟩ := hex
            have hcP : c ∈ P := by
              rcases List.mem_append.mp hc with h | h
              · exact h
              · rw [List.mem_singleton.mp h] at hck
                rw [hck] at hk
                injection hk with hk
                exact absurd hk hkk
            obtain ⟨bb2, hlook2, hc1, hc2, hc3, hc4⟩ := hB k ⟨c, hcP, hck⟩
            refine ⟨bb2, hlook2, hc1, List.mem_append_left _ hc2, ?_, ?_⟩
            · intro c' hc' hck'
              rcases List.mem_append.mp hc' with h | h
              · exact hc3 c' h hck'
              · rw [List.mem_singleton.mp h] at hck'
                rw [hck'] at hk
                injection hk with hk
                exact absurd hk hkk
            · intro c' hc' hck' hcf
              rcases List.mem_append.mp hc' with h | h
              · exact hc4 c' h hck' hcf
              · rw [List.mem_singleton.mp h] at hck'
                rw [hck'] at hk
                injection hk with hk
                exact absurd hk hkk
        · exact hC
        · intro x hx
          exact List.mem_append_left _ (hE x hx)
  | none =>
    simp only [dedupStep, hk]
    cases hs : lookupA st.seen (partTitle b) with
    | some old =>
      simp only [hs]
      refine ⟨?_, ?_, ?_, hD, ?_⟩
      · intro k bbx hbb
        obtain ⟨h1, h2⟩ := hA k bbx hbb
        exact ⟨h1, List.mem_append_left _ h2⟩
      · intro k hex
        obtain ⟨c, hc, hck⟩ := hex
        have hcP : c ∈ P := by
          rcases List.mem_append.mp hc with h | h
          · exact h
          · rw [List.mem_singleton.mp h] at hck
            rw [hck] at hk
            cases hk
        obtain ⟨bb2, hlook2, hc1, hc2, hc3, hc4⟩ := hB k ⟨c, hcP, hck⟩
        refine ⟨bb2, hlook2, hc1, List.mem_append_left _ hc2, ?_, ?_⟩
        · intro c' hc' hck'
          rcases List.mem_append.mp hc' with h | h
          · exact hc3 c' h hck'
          · rw [List.mem_singleton.mp h] at hck'
            rw [hck'] at hk
            cases hk
        · intro c' hc' hck' hcf
          rcases List.mem_append.mp hc' with h | h
          · exact hc4 c' h hck' hcf
          · rw [List.mem_singleton.mp h] at hck'
            rw [hck'] at hk
            cases hk
      · exact hC
      · intro x hx
        exact List.mem_append_left _ (hE x hx)
    | none =>
      simp only [hs]
      by_cases hcont : hasContentAfter doc b.position
      · rw [if_pos hcont]
        refine ⟨?_, ?_, ?_, ?_, ?_⟩
        · intro k bbx hbb
          by_cases hkk : k = partTitle b
          · subst hkk
            rw [lookupA_dictSet_self] at hbb
            injection hbb with hbb
            subst hbb
            exact ⟨Or.inr ⟨hk, rfl⟩, List.mem_append_right _ (List.mem_singleton_self b)⟩
          · rw [lookupA_dictSet_ne _ _ _ _ (fun h => hkk h)] at hbb
            obtain ⟨h1, h2⟩ := hA k bbx hbb
            exact ⟨h1, List.mem_append_left _ h2⟩
        · intro k hex
          obtain ⟨c, hc, hck⟩ := hex
          have hcP : c ∈ P := by
            rcases List.mem_append.mp hc with h | h
            · exact h
            · rw [List.mem_singleton.mp h] at hck
              rw [hck] at hk
              cases hk
          have hkk : k ≠ partTitle b :=
            fun h => (hdisj b hbl hk c (hPl _ hcP)) (by rw [← h]; exact hck)
          obtain ⟨bb2, hlook2, hc1, hc2, hc3, hc4⟩ := hB k ⟨c, hcP, hck⟩
          refine ⟨bb2, ?_, hc1, List.mem_append_left _ hc2, ?_, ?_⟩
          · rw [lookupA_dictSet_ne _ _ _ _ (fun h => hkk h)]
            exact hlook2
          · intro c' hc' hck'
            rcases List.mem_append.mp hc' with h | h
            · exact hc3 c' h hck'
            · rw [List.mem_singleton.mp h] at hck'
              rw [hck'] at hk
              cases hk
          · intro c' hc' hck' hcf
            rcases List.mem_append.mp hc' with h | h
            · exact hc4 c' h hck' hcf
            · rw [List.mem_singleton.mp h] at hck'
              rw [hck'] at hk
              cases hk
        · intro k
          rw [List.filter_append]
          have hbf : (itemKey b == some k) = false := by
            simp only [beq_eq_false_iff_ne, ne_eq]
            rw [hk]
            intro h
            cases h
          simp only [List.filter_cons, hbf, List.filter_nil, List.append_nil]
          rw [hC k]
          by_cases hkk : k = partTitle b
          · subst hkk
            simp [seenItemList, hs, lookupA_dictSet_self, hk]
          · simp [seenItemList,
              lookupA_dictSet_ne (partTitle b) k b st.seen (fun h => hkk h)]
        · rw [List.nodup_append]
          refine ⟨hD, List.nodup_singleton b, ?_⟩
          intro x hx hxb
          rw [List.mem_singleton.mp hxb] at hx
          exact hfresh (hE b hx)
        · intro x hx
          rcases List.mem_append.mp hx with h | h
          · exact List.mem_append_left _ (hE x h)
          · exact List.mem_append_right _ h
      · rw [if_neg hcont]
        refine ⟨?_, ?_, ?_, hD, ?_⟩
        · intro k bbx hbb
          obtain ⟨h1, h2⟩ := hA k bbx hbb
          exact ⟨h1, List.mem_append_left _ h2⟩
        · intro k hex
          obtain ⟨c, hc, hck⟩ := hex
          have hcP : c ∈ P := by
            rcases List.mem_append.mp hc with h | h
            · exact h
            · rw [List.mem_singleton.mp h] at hck
              rw [hck] at hk
              cases hk
          obtain ⟨bb2, hlook2, hc1, hc2, hc3, hc4⟩ := hB k ⟨c, hcP, hck⟩
          refine ⟨bb2, hlook2, hc1, List.mem_append_left _ hc2, ?_, ?_⟩
          · intro c' hc' hck'
            rcases List.mem_append.mp hc' with h | h
            · exact hc3 c' h hck'
            · rw [List.mem_singleton.mp h] at hck'
              rw [hck'] at hk
              cases hk
          · intro c' hc' hck' hcf
            rcases List.mem_append.mp hc' with h | h
            · exact hc4 c' h hck' hcf
            · rw [List.mem_singleton.mp h] at hck'
              rw [hck'] at hk
              cases hk
        · exact hC
        · intro x hx
          exact List.mem_append_left _ (hE x hx)

theorem dedupFold_inv (doc : List Char) (l : List RawBoundary) (hdisj : partsDisjoint l) :
    ∀ (rem P : List RawBoundary) (st : DedupState),
      dedupInv P st →
      (∀ x ∈ P, x ∈ l) → (∀ x ∈ rem, x ∈ l) →
      (P ++ rem).Nodup →
      List.Pairwise (fun a b : RawBoundary => a.position ≤ b.position) (P ++ rem) →
      dedupInv (P ++ rem) (rem.foldl (dedupStep doc) st) := by
  intro rem
  induction rem with
  | nil =>
    intro P st hinv _ _ _ _
    simpa using hinv
  | cons b t ih =>
    intro P st hinv hPl hreml hnd hpw
    have hbl : b ∈ l := hreml b (List.mem_cons_self b t)
    have hfresh : b ∉ P := by
      rw [List.nodup_append] at hnd
      intro hbP
      exact hnd.2.2 hbP (List.mem_cons_self b t)
    have hpos : ∀ x ∈ P, x.position ≤ b.position := by
      rw [List.pairwise_append] at hpw
      intro x hx
      exact hpw.2.2 x hx b (List.mem_cons_self b t)
    have hstep := dedupStep_inv doc l P b st hPl hbl hdisj hfresh hpos hinv
    have hassoc : P ++ b :: t = (P ++ [b]) ++ t := by simp
    rw [hassoc] at hnd hpw ⊢
    have := ih (P ++ [b]) (dedupStep doc st b) hstep
      (by
        intro x hx
        rcases List.mem_append.mp hx with h | h
        · exact hPl x h
        · rw [List.mem_singleton.mp h]; exact hbl)
      (fun x hx => hreml x (List.mem_cons_of_mem b hx)) hnd hpw
    simpa [List.foldl_cons] using this

theorem dedupInv_init : dedupInv [] { filtered := [], seen := [] } := by
  refine ⟨?_, ?_, ?_, List.nodup_nil, ?_⟩
  · intro k bb hbb
    simp [lookupA] at hbb
  · intro k hex
    obtain ⟨c, hc, _⟩ := hex
    simp at hc
  · intro k
    simp [seenItemList, lookupA]
  · intro x hx
    simp at hx

theorem proximityFilter_sorted :
    ∀ (l kept : List RawBoundary),
      List.Pairwise (fun a b : RawBoundary => a.position ≤ b.position) (kept ++ l) →
      List.Pairwise (fun a b : RawBoundary => a.position ≤ b.position)
        (proximityFilter kept l) := by
  intro l
  induction l with
  | nil =>
    intro kept h
    simpa [proximityFilter] using h
  | cons b t ih =>
    intro kept h
    simp only [proximityFilter]
    by_cases hc : kept.any (fun e => natDist b.position e.position < 200)
    · rw [if_pos hc]
      refine ih kept ?_
      have hsub : (kept ++ t).Sublist (kept ++ b :: t) :=
        List.Sublist.append_left (List.sublist_cons_self b t) kept
      exact h.sublist hsub
    · rw [if_neg hc]
      refine ih (kept ++ [b]) ?_
      have : (kept ++ [b]) ++ t = kept ++ b :: t := by simp
      rw [this]
      exact h

theorem proximityFilter_subset :
    ∀ (l kept : List RawBoundary) (x : RawBoundary),
      x ∈ proximityFilter kept l → x ∈ kept ++ l := by
  intro l
  induction l with
  | nil =>
    intro kept x hx
    simpa [proximityFilter] using hx
  | cons b t ih =>
    intro kept x hx
    simp only [proximityFilter] at hx
    by_cases hc : kept.any (fun e => natDist b.position e.position < 200)
    · rw [if_pos hc] at hx
      have := ih kept x hx
      rcases List.mem_append.mp this with h | h
      · exact List.mem_append_left _ h
      · exact List.mem_append_right _ (List.mem_cons_of_mem b h)
    · rw [if_neg hc] at hx
      have := ih (kept ++ [b]) x hx
      rcases List.mem_append.mp this with h | h
      · rcases List.mem_append.mp h with h' | h'
        · exact List.mem_append_left _ h'
        · rw [List.mem_singleton.mp h']
          exact List.mem_append_right _ (List.mem_cons_self b t)
      · exact List.mem_append_right _ (List.mem_cons_of_mem b h)

/-- C3 (amended).  For every list of strategy-match records without exact
duplicates and with PART titles distinct from item numbers (both guaranteed by
the strategy patterns), each matched item number survives the dedup stage on
exactly one boundary, and that boundary is a maximum-confidence candidate for
the item, earliest by position among the maximal ones; the deduped and the
final lists are sorted ascending by position, and the final list is a subset
of the deduped one.  The claim's "exactly one surviving boundary" holds only
for the dedup stage: the subsequent 200-character near-duplicate suppression
can remove such a boundary from the final list entirely (see the
counterexample). -/
theorem claim_C3_dedup_amended (doc : List Char) (ms : List RawBoundary)
    (hnd : ms.Nodup) (hdisj : partsDisjoint ms) :
    (∀ k b0, b0 ∈ ms → itemKey b0 = some k →
      ∃ b, (dedupStage doc ms).filter (fun x => itemKey x == some k) = [b] ∧
        isBestFor ms k b) ∧
    List.Pairwise posLe (dedupStage doc ms) ∧
    List.Pairwise posLe (filterBoundaries doc ms) ∧
    (∀ x ∈ filterBoundaries doc ms, x ∈ dedupStage doc ms) := by
  have hperm : (sortByPosition ms).Perm ms := List.perm_insertionSort posLe ms
  have hsorted : List.Sorted posLe (sortByPosition ms) :=
    List.sorted_insertionSort posLe ms
  have hndS : (sortByPosition ms).Nodup := hperm.nodup_iff.mpr hnd
  have hdisjS : partsDisjoint (sortByPosition ms) := by
    intro bp hbp hnone bi hbi
    exact hdisj bp (hperm.mem_iff.mp hbp) hnone bi (hperm.mem_iff.mp hbi)
  have hinv := dedupFold_inv doc (sortByPosition ms) hdisjS (sortByPosition ms) []
    { filtered := [], seen := [] } dedupInv_init
    (by intro x hx; simp at hx) (fun x hx => hx)
    (by simpa using hndS) (by simpa using hsorted)
  rw [List.nil_append] at hinv
  obtain ⟨hA, hB, hC, hD, hE⟩ := hinv
  constructor
  · intro k b0 hb0 hb0k
    have hb0s : b0 ∈ sortByPosition ms := hperm.mem_iff.mpr hb0
    obtain ⟨bb, hlook, hbest⟩ := hB k ⟨b0, hb0s, hb0k⟩
    have hfil : (dedupBoundaries doc (sortByPosition ms)).filter
        (fun x => itemKey x == some k) = [bb] := by
      unfold dedupBoundaries
      rw [hC k]
      simp [seenItemList, hlook, hbest.1]
    have hpermFil : ((dedupStage doc ms).filter (fun x => itemKey x == some k)).Perm
        ((dedupBoundaries doc (sortByPosition ms)).filter (fun x => itemKey x == some k)) := by
      unfold dedupStage
      exact (List.perm_insertionSort posLe _).filter _
    rw [hfil] at hpermFil
    refine ⟨bb, List.perm_singleton.mp hpermFil, ?_⟩
    obtain ⟨hk1, hk2, hk3, hk4⟩ := hbest
    exact ⟨hk1, hperm.mem_iff.mp hk2,
      fun c hc hck => hk3 c (hperm.mem_iff.mpr hc) hck,
      fun c hc hck hcf => hk4 c (hperm.mem_iff.mpr hc) hck hcf⟩
  refine ⟨List.sorted_insertionSort posLe _, ?_, ?_⟩
  · unfold filterBoundaries
    refine proximityFilter_sorted _ [] ?_
    rw [List.nil_append]
    exact List.sorted_insertionSort posLe _
  · intro x hx
    unfold filterBoundaries at hx
    have := proximityFilter_subset _ [] x hx
    rw [List.nil_append] at this
    exact this

/-- C3 counterexample.  Item `1A` is matched by two strategies (so the claim
applies to it), the dedup stage keeps exactly one boundary for it — but the
final list returned by the filtering pipeline of `detect_section_boundaries`
contains no boundary for item `1A` at all: its winner at position 250 lies
within 200 characters of the kept `Item 1` boundary at position 100 and is
dropped by the near-duplicate suppression pass. -/
theorem claim_C3_counterexample :
    (([c3m1, c3m2, c3m3].filter (fun x => itemKey x == some "1A")).length = 2) ∧
    (dedupStage [] [c3m1, c3m2, c3m3]).filter (fun x => itemKey x == some "1A") = [c3m2] ∧
    (filterBoundaries [] [c3m1, c3m2, c3m3]).filter (fun x => itemKey x == some "1A") = [] := by
  refine ⟨by decide, by decide, by decide⟩

/-- Witness for C3 at the concrete match list: the dedup-stage part of the
amended claim applied to item `1A`. -/
theorem claim_C3_witness :
    ∃ b, (dedupStage [] [c3m1, c3m2, c3m3]).filter (fun x => itemKey x == some "1A") = [b] ∧
      isBestFor [c3m1, c3m2, c3m3] "1A" b :=
  (claim_C3_dedup_amended [] [c3m1, c3m2, c3m3] (by decide) (by decide)).1
    "1A" c3m2 (by decide) (by decide)

/-! ## Combiner lemmas (C6, C9) -/

theorem optOr_assoc (a b c : Option α) : optOr (optOr a b) c = optOr a (optOr b c) := by
  cases a <;> simp [optOr]

theorem optOr_map (f : α → β) (a b : Option α) :
    (optOr a b).map f = optOr (a.map f) (b.map f) := by
  cases a <;> simp [optOr]

theorem find?_append_opt (l1 l2 : List α) (p : α → Bool) :
    (l1 ++ l2).find? p = optOr (l1.find? p) (l2.find? p) := by
  induction l1 with
  | nil => simp [optOr]
  | cons x t ih =>
    by_cases hx : p x = true
    · simp [List.find?_cons_of_pos _ hx, optOr]
    · simp only [List.cons_append, List.find?_cons_of_neg _ (by simpa using hx), ih]

theorem combineFold_eq (rs : List (CombResult δ)) : ∀ (cats : Categories δ) frs,
    rs.foldl combineStep (cats, frs) =
      (catInsertAll cats (okSections rs), frs ++ failedRecs rs) := by
  induction rs with
  | nil => intro cats frs; simp [okSections, failedRecs, catInsertAll]
  | cons r rest ih =>
    intro cats frs
    cases r with
    | ok s =>
      rw [List.foldl_cons]
      show rest.foldl combineStep (catInsertAll cats s, frs) = _
      rw [ih]
      simp [okSections, failedRecs, catInsertAll, List.foldl_append]
    | failed cid err secs =>
      rw [List.foldl_cons]
      show rest.foldl combineStep (cats, frs ++ [_]) = _
      rw [ih]
      simp [okSections, failedRecs]

theorem catInsert_map_fst (m : Categories δ) (k : String) (v : δ) :
    (catInsert m k v).map Prod.fst = m.map Prod.fst := by
  unfold catInsert
  rw [List.map_map]
  apply List.map_congr_left
  intro p _
  by_cases h : p.1 = determineSectionCategory k <;> simp [h]

theorem catInsertAll_map_fst (l : List (String × δ)) : ∀ (m : Categories δ),
    (catInsertAll m l).map Prod.fst = m.map Prod.fst := by
  induction l with
  | nil => intro m; rfl
  | cons q t ih =>
    intro m
    show (catInsertAll (catInsert m q.1 q.2) t).map Prod.fst = _
    rw [ih, catInsert_map_fst]

theorem lookupA_catInsert (m : Categories δ) (kn : String) (v : δ) (c : String) :
    lookupA (catInsert m kn v) c =
      if c = determineSectionCategory kn
      then (lookupA m c).map (fun inner => dictSet kn v inner)
      else lookupA m c := by
  induction m with
  | nil =>
    by_cases h : c = determineSectionCategory kn <;> simp [catInsert, lookupA, h]
  | cons p t ih =>
    unfold catInsert at ih ⊢
    simp only [List.map_cons]
    by_cases hp : p.1 = determineSectionCategory kn
    · rw [if_pos hp]
      simp only [lookupA]
      by_cases hc : p.1 = c
      · rw [if_pos hc]
        have hcd : c = determineSectionCategory kn := hc ▸ hp
        rw [if_pos hcd]
        simp [hc]
      · rw [if_neg hc, ih]
        by_cases hcd : c = determineSectionCategory kn
        · rw [if_pos hcd, if_pos hcd]
          simp [hc]
        · rw [if_neg hcd, if_neg hcd]
          simp [lookupA, hc]
    · rw [if_neg hp]
      simp only [lookupA]
      by_cases hc : p.1 = c
      · rw [if_pos hc]
        have hcd : ¬ c = determineSectionCategory kn := by
          rw [← hc]; exact hp
        rw [if_neg hcd]
        simp [lookupA, hc]
      · rw [if_neg hc, ih]
        by_cases hcd : c = determineSectionCategory kn
        · rw [if_pos hcd, if_pos hcd]
          simp [hc]
        · rw [if_neg hcd, if_neg hcd]
          simp [lookupA, hc]

theorem lookupA_catInsertAll (l : List (String × δ)) : ∀ (m : Categories δ) (c : String),
    lookupA (catInsertAll m l) c =
      (lookupA m c).map (fun inner =>
        dictFold inner (l.filter (fun q => determineSectionCategory q.1 == c))) := by
  induction l with
  | nil =>
    intro m c
    cases h : lookupA m c <;> simp [catInsertAll, dictFold, h]
  | cons q t ih =>
    intro m c
    show lookupA (catInsertAll (catInsert m q.1 q.2) t) c = _
    rw [ih, lookupA_catInsert]
    by_cases hd : c = determineSectionCategory q.1
    · rw [if_pos hd]
      have hf : (q :: t).filter (fun q' => determineSectionCategory q'.1 == c) =
          q :: t.filter (fun q' => determineSectionCategory q'.1 == c) := by
        rw [List.filter_cons]
        rw [show (determineSectionCategory q.1 == c) = true by simp [hd]]
        simp
      rw [hf]
      cases h : lookupA m c <;> simp [h, dictFold]
    · rw [if_neg hd]
      have hf : (q :: t).filter (fun q' => determineSectionCategory q'.1 == c) =
          t.filter (fun q' => determineSectionCategory q'.1 == c) := by
        rw [List.filter_cons]
        rw [show (determineSectionCategory q.1 == c) = false by
          simp only [beq_eq_false_iff_ne, ne_eq]
          exact fun h => hd h.symm]
        simp
      rw [hf]

theorem dictFold_lookup (l : List (String × δ)) : ∀ (d : List (String × δ)) (k : String),
    lookupA (dictFold d l) k =
      optOr ((l.reverse.find? (fun q => q.1 == k)).map Prod.snd) (lookupA d k) := by
  induction l with
  | nil => intro d k; simp [dictFold, optOr]
  | cons q t ih =>
    intro d k
    show lookupA (dictFold (dictSet q.1 q.2 d) t) k = _
    rw [ih]
    rw [List.reverse_cons, find?_append_opt, optOr_map, optOr_assoc]
    congr 1
    by_cases hk : q.1 = k
    · subst hk
      rw [lookupA_dictSet_self]
      simp [List.find?, optOr]
    · rw [lookupA_dictSet_ne _ _ _ _ (fun h => hk h.symm)]
      have : (fun q' : String × δ => q'.1 == k) q = false := by
        simpa using hk
      simp [List.find?, this, optOr]

theorem find?_key_of_nodup (l : List (String × δ)) (k : String) :
    ∀ (x : String × δ), (l.map Prod.fst).Nodup → x ∈ l → x.1 = k →
      l.find? (fun q => q.1 == k) = some x := by
  induction l with
  | nil => intro x _ hx; simp at hx
  | cons q t ih =>
    intro x hnd hx hk
    rcases List.mem_cons.mp hx with rfl | hxt
    · exact List.find?_cons_of_pos _ (by simpa using hk)
    · have hq : (q.1 == k) = false := by
        simp only [List.map_cons, List.nodup_cons] at hnd
        have : x.1 ∈ t.map Prod.fst := List.mem_map_of_mem Prod.fst hxt
        rw [hk] at this
        simp only [beq_eq_false_iff_ne, ne_eq]
        intro hqk
        rw [hqk] at hnd
        exact hnd.1 this
      rw [List.find?_cons_of_neg _ (by simpa using hq)]
      exact ih x (by simp only [List.map_cons, List.nodup_cons] at hnd; exact hnd.2) hxt hk

theorem find?_key_perm (l1 l2 : List (String × δ)) (h : l1.Perm l2)
    (hnd : (l1.map Prod.fst).Nodup) (k : String) :
    l1.find? (fun q => q.1 == k) = l2.find? (fun q => q.1 == k) := by
  cases hf : l1.find? (fun q => q.1 == k) with
  | some x =>
    have hx1 : x ∈ l1 := List.mem_of_find?_eq_some hf
    have hxk := List.find?_some hf
    have hnd2 : (l2.map Prod.fst).Nodup := ((h.map Prod.fst).nodup_iff).mp hnd
    exact (find?_key_of_nodup l2 k x hnd2 (h.mem_iff.mp hx1) (by simpa using hxk)).symm
  | none =>
    rw [List.find?_eq_none] at hf
    symm
    rw [List.find?_eq_none]
    intro x hx
    exact hf x (h.mem_iff.mpr hx)

theorem okSections_perm {rs1 rs2 : List (CombResult δ)} (h : rs1.Perm rs2) :
    (okSections rs1).Perm (okSections rs2) := by
  induction h with
  | nil => exact List.Perm.refl _
  | cons x _ ih =>
    cases x with
    | ok s => exact ih.append_left s
    | failed cid err secs => simpa [okSections] using ih
  | swap x y l =>
    cases x <;> cases y <;> simp [okSections]
    case ok.ok s2 s =>
      rw [← List.append_assoc, ← List.append_assoc]
      exact (List.perm_append_comm).append_right _
  | trans _ _ ih1 ih2 => exact ih1.trans ih2

theorem okSections_append (a b : List (CombResult δ)) :
    okSections (a ++ b) = okSections a ++ okSections b := by
  induction a with
  | nil => rfl
  | cons r t ih => cases r <;> simp [okSections, ih]

theorem failedRecs_all_ok (rs : List (CombResult δ))
    (h : ∀ r ∈ rs, isOkResult r = true) : failedRecs rs = [] := by
  induction rs with
  | nil => rfl
  | cons r t ih =>
    cases r with
    | ok s => exact ih (fun r hr => h r (List.mem_cons_of_mem _ hr))
    | failed cid err secs =>
      have := h _ (List.mem_cons_self _ t)
      simp [isOkResult] at this

theorem dictSet_of_none (k : String) (v : δ) (d : List (String × δ))
    (h : lookupA d k = none) : dictSet k v d = d ++ [(k, v)] := by
  induction d with
  | nil => rfl
  | cons p t ih =>
    simp only [lookupA] at h
    by_cases hp : p.1 = k
    · rw [if_pos hp] at h; cases h
    · rw [if_neg hp] at h
      simp [dictSet, hp, ih h]

theorem lookupA_append (d1 d2 : List (String × δ)) (k : String) :
    lookupA (d1 ++ d2) k = optOr (lookupA d1 k) (lookupA d2 k) := by
  induction d1 with
  | nil => simp [lookupA, optOr]
  | cons p t ih =>
    by_cases hp : p.1 = k
    · simp [lookupA, hp, optOr]
    · simp [lookupA, hp, ih]

theorem dictFold_fresh (l : List (String × δ)) :
    ∀ (d : List (String × δ)), (∀ q ∈ l, lookupA d q.1 = none) →
      (l.map Prod.fst).Nodup → dictFold d l = d ++ l := by
  induction l with
  | nil => intro d _ _; simp [dictFold]
  | cons q t ih =>
    intro d hnone hnd
    show dictFold (dictSet q.1 q.2 d) t = _
    rw [dictSet_of_none q.1 q.2 d (hnone q (List.mem_cons_self q t))]
    simp only [List.map_cons, List.nodup_cons] at hnd
    rw [ih (d ++ [(q.1, q.2)]) ?_ hnd.2]
    · simp
    · intro q' hq'
      rw [lookupA_append]
      rw [hnone q' (List.mem_cons_of_mem q hq')]
      have : q'.1 ≠ q.1 := by
        intro he
        exact hnd.1 (he ▸ List.mem_map_of_mem Prod.fst hq')
      simp [optOr, lookupA, Ne.symm this]

theorem catInsertAll_struct (l : List (String × δ)) :
    ∀ (g : String → List (String × δ)),
      catInsertAll (categoryNames.map (fun c => (c, g c))) l =
        categoryNames.map (fun c =>
          (c, dictFold (g c) (l.filter (fun q => determineSectionCategory q.1 == c)))) := by
  induction l with
  | nil => intro g; simp [catInsertAll, dictFold]
  | cons q t ih =>
    intro g
    show catInsertAll (catInsert _ q.1 q.2) t = _
    have hstep : catInsert (categoryNames.map (fun c => (c, g c))) q.1 q.2 =
        categoryNames.map (fun c =>
          (c, if c = determineSectionCategory q.1 then dictSet q.1 q.2 (g c) else g c)) := by
      unfold catInsert
      rw [List.map_map]
      apply List.map_congr_left
      intro c _
      by_cases h : c = determineSectionCategory q.1 <;> simp [h]
    rw [hstep, ih]
    apply List.map_congr_left
    intro c _
    by_cases h : c = determineSectionCategory q.1
    · have hb : (determineSectionCategory q.1 == c) = true := by simp [h]
      simp only [List.filter_cons, hb, if_true, if_pos h]
      rfl
    · have hb : (determineSectionCategory q.1 == c) = false := by
        simp only [beq_eq_false_iff_ne, ne_eq]
        exact fun he => h he.symm
      simp only [List.filter_cons, hb, if_neg h]
      simp

theorem lookupA_snd_mem (d : List (String × α)) (k : String) (v : α)
    (h : lookupA d k = some v) : v ∈ d.map Prod.snd := by
  induction d with
  | nil => cases h
  | cons p t ih =>
    simp only [lookupA] at h
    by_cases hp : p.1 = k
    · rw [if_pos hp] at h
      injection h with h
      simp [← h]
    · rw [if_neg hp] at h
      simp [ih h]

theorem determineSectionCategory_mem (s : String) :
    determineSectionCategory s ∈ categoryNames := by
  unfold determineSectionCategory
  cases hm : searchItemNumber s.data with
  | none =>
    simp only [hm]
    decide
  | some g =>
    simp only [hm]
    cases hl : lookupA sectionToCategory ("Item " ++ g) with
    | none =>
      simp only [hl, Option.getD]
      decide
    | some v =>
      simp only [hl, Option.getD]
      have hv := lookupA_snd_mem _ _ _ hl
      have hall : ∀ x ∈ sectionToCategory.map Prod.snd, x ∈ categoryNames := by decide
      exact hall v hv

theorem combine_categories (now company year : String) (rs : List (CombResult δ)) :
    (combineIncrementalResults now company year rs).categories =
      categoryNames.map (fun c =>
        (c, dictFold []
          ((okSections rs).filter (fun q => determineSectionCategory q.1 == c)))) := by
  unfold combineIncrementalResults
  simp only [combineFold_eq]
  exact catInsertAll_struct (okSections rs) (fun _ => [])

theorem combine_failedChunks (now company year : String) (rs : List (CombResult δ)) :
    (combineIncrementalResults now company year rs).failedChunks = failedRecs rs := by
  unfold combineIncrementalResults
  simp only [combineFold_eq]
  rw [List.nil_append]

theorem lookupA_map_names (names : List String) (f : String → α) (c : String) :
    lookupA (names.map (fun n => (n, f n))) c =
      if c ∈ names then some (f c) else none := by
  induction names with
  | nil => simp [lookupA]
  | cons n t ih =>
    simp only [List.map_cons, lookupA]
    by_cases hn : n = c
    · subst hn
      simp
    · rw [if_neg hn, ih]
      by_cases hc : c ∈ t
      · rw [if_pos hc, if_pos (List.mem_cons_of_mem n hc)]
      · simp only [hc, if_false]
        rw [if_neg ?_]
        intro h
        rcases List.mem_cons.mp h with h | h
        · exact hn h.symm
        · exact hc h

theorem combine_catLookup (now company year : String) (rs : List (CombResult δ))
    (cat k : String) :
    catLookup (combineIncrementalResults now company year rs) cat k =
      if cat ∈ categoryNames then
        ((((okSections rs).filter
            (fun q => determineSectionCategory q.1 == cat)).reverse.find?
          (fun q => q.1 == k)).map Prod.snd)
      else none := by
  unfold catLookup
  rw [combine_categories, lookupA_map_names]
  by_cases hc : cat ∈ categoryNames
  · rw [if_pos hc, if_pos hc]
    show lookupA (dictFold []
      ((okSections rs).filter (fun q => determineSectionCategory q.1 == cat))) k = _
    rw [dictFold_lookup]
    cases (((okSections rs).filter
        (fun q => determineSectionCategory q.1 == cat)).reverse.find?
      (fun q => q.1 == k)) <;> simp [optOr, lookupA]
  · rw [if_neg hc, if_neg hc]

/-- C6 (amended).  Re-running `combine_incremental_results` on the same inputs
yields a `StructuredFiling` identical except for the embedded wall-clock
`timestamp` (so byte-identical JSON exactly when the clock reads are equal);
for successful results with pairwise-distinct section keys the merge is
order-independent (category lookups, per-category counts, totals, failure
metadata and chunk counts are permutation-invariant); and on a key collision
the last write wins. -/
theorem claim_C6_combine_amended (δ : Type) :
    (∀ (n1 n2 company year : String) (rs : List (CombResult δ)),
      combineIncrementalResults n1 company year rs =
        { combineIncrementalResults n2 company year rs with timestamp := n1 }) ∧
    (∀ (now company year : String) (rs1 rs2 : List (CombResult δ)),
      rs1.Perm rs2 → (∀ r ∈ rs1, isOkResult r = true) →
      ((okSections rs1).map Prod.fst).Nodup →
      (∀ cat k, catLookup (combineIncrementalResults now company year rs1) cat k =
        catLookup (combineIncrementalResults now company year rs2) cat k) ∧
      (combineIncrementalResults now company year rs1).sectionsByCategory =
        (combineIncrementalResults now company year rs2).sectionsByCategory ∧
      (combineIncrementalResults now company year rs1).totalSectionsExtracted =
        (combineIncrementalResults now company year rs2).totalSectionsExtracted ∧
      (combineIncrementalResults now company year rs1).failedChunks =
        (combineIncrementalResults now company year rs2).failedChunks ∧
      (combineIncrementalResults now company year rs1).chunksProcessed =
        (combineIncrementalResults now company year rs2).chunksProcessed) ∧
    (∀ (now company year : String) (rs : List (CombResult δ)) (k : String) (v : δ),
      catLookup
        (combineIncrementalResults now company year (rs ++ [CombResult.ok [(k, v)]]))
        (determineSectionCategory k) k = some v) := by
  refine ⟨?_, ?_, ?_⟩
  · intro n1 n2 company year rs
    rfl
  · intro now company year rs1 rs2 hperm hok hnd
    have hsec : (okSections rs1).Perm (okSections rs2) := okSections_perm hperm
    have hfilterPerm : ∀ cat : String,
        ((okSections rs1).filter (fun q => determineSectionCategory q.1 == cat)).Perm
        ((okSections rs2).filter (fun q => determineSectionCategory q.1 == cat)) :=
      fun cat => hsec.filter _
    have hndFilter : ∀ cat : String,
        (((okSections rs1).filter
          (fun q => determineSectionCategory q.1 == cat)).map Prod.fst).Nodup := by
      intro cat
      exact hnd.sublist ((List.filter_sublist _).map Prod.fst)
    have hlenFilter : ∀ cat : String,
        ((okSections rs1).filter (fun q => determineSectionCategory q.1 == cat)).length =
        ((okSections rs2).filter (fun q => determineSectionCategory q.1 == cat)).length :=
      fun cat => (hfilterPerm cat).length_eq
    have hfold : ∀ (rsx : List (CombResult δ)) (cat : String),
        (((okSections rsx).filter
            (fun q => determineSectionCategory q.1 == cat)).map Prod.fst).Nodup →
        dictFold [] ((okSections rsx).filter
          (fun q => determineSectionCategory q.1 == cat)) =
        (okSections rsx).filter (fun q => determineSectionCategory q.1 == cat) := by
      intro rsx cat hndx
      rw [dictFold_fresh _ [] (fun q _ => rfl) hndx]
      simp
    refine ⟨?_, ?_, ?_, ?_, ?_⟩
    · intro cat k
      rw [combine_catLookup, combine_catLookup]
      by_cases hc : cat ∈ categoryNames
      · rw [if_pos hc, if_pos hc]
        have hpr : (((okSections rs1).filter
            (fun q => determineSectionCategory q.1 == cat)).reverse).Perm
            (((okSections rs2).filter
            (fun q => determineSectionCategory q.1 == cat)).reverse) :=
          ((List.reverse_perm _).trans (hfilterPerm cat)).trans
            (List.reverse_perm _).symm
        have hndr : ((((okSections rs1).filter
            (fun q => determineSectionCategory q.1 == cat)).reverse).map Prod.fst).Nodup := by
          have := hndFilter cat
          exact (((List.reverse_perm _).map Prod.fst).nodup_iff).mpr this
        rw [find?_key_perm _ _ hpr hndr k]
      · rw [if_neg hc, if_neg hc]
    · unfold combineIncrementalResults
      simp only [combineFold_eq]
      show (catInsertAll (initCategories δ) (okSections rs1)).map _ =
        (catInsertAll (initCategories δ) (okSections rs2)).map _
      rw [show initCategories δ =
          categoryNames.map (fun c => (c, (fun _ => ([] : List (String × δ))) c)) from rfl,
        catInsertAll_struct, catInsertAll_struct]
      rw [List.map_map, List.map_map]
      apply List.map_congr_left
      intro c _
      simp only [Function.comp]
      rw [hfold rs1 c (hndFilter c), hfold rs2 c ?_]
      · rw [hlenFilter c]
      · exact ((hfilterPerm c).map Prod.fst).nodup_iff.mp (hndFilter c)
    · unfold combineIncrementalResults
      simp only [combineFold_eq]
      show ((catInsertAll (initCategories δ) (okSections rs1)).map _).sum =
        ((catInsertAll (initCategories δ) (okSections rs2)).map _).sum
      rw [show initCategories δ =
          categoryNames.map (fun c => (c, (fun _ => ([] : List (String × δ))) c)) from rfl,
        catInsertAll_struct, catInsertAll_struct]
      rw [List.map_map, List.map_map]
      congr 1
      apply List.map_congr_left
      intro c _
      simp only [Function.comp]
      rw [hfold rs1 c (hndFilter c), hfold rs2 c ?_]
      · rw [hlenFilter c]
      · exact ((hfilterPerm c).map Prod.fst).nodup_iff.mp (hndFilter c)
    · rw [combine_failedChunks, combine_failedChunks]
      rw [failedRecs_all_ok rs1 hok, failedRecs_all_ok rs2 ?_]
      intro r hr
      exact hok r (hperm.mem_iff.mpr hr)
    · unfold combineIncrementalResults
      simp only []
      show rs1.length = rs2.length
      exact hperm.length_eq
  · intro now company year rs k v
    rw [combine_catLookup, if_pos (determineSectionCategory_mem k)]
    rw [okSections_append]
    have hone : okSections [CombResult.ok [(k, v)]] = [(k, v)] := by
      simp [okSections]
    rw [hone, List.filter_append]
    have hkv : ([(k, v)].filter
        (fun q => determineSectionCategory q.1 == determineSectionCategory k)) = [(k, v)] := by
      simp [List.filter_cons]
    rw [hkv, List.reverse_append]
    simp only [List.reverse_cons, List.reverse_nil, List.nil_append, List.cons_append]
    rw [List.find?_cons_of_pos _ (by simp)]
    rfl

/-- C6 counterexample.  Two runs of the combiner on the same chunk results at
different clock times produce different `StructuredFiling`s — the embedded
`datetime.now()` timestamp differs, so the pretty-printed JSON is not
byte-identical.  (Claimed: byte-identical output for the same input list.) -/
theorem claim_C6_counterexample :
    combineIncrementalResults (δ := Unit) "2024-01-01T00:00:00" "ACME" "2023"
        [CombResult.ok [("Item 1. Business", ())]] ≠
      combineIncrementalResults (δ := Unit) "2024-01-01T00:00:01" "ACME" "2023"
        [CombResult.ok [("Item 1. Business", ())]] := by
  intro h
  have ht : ("2024-01-01T00:00:00" : String) = "2024-01-01T00:00:01" :=
    congrArg StructuredFiling.timestamp h
  exact absurd ht (by decide)

/-- Witness for C6 at concrete inputs: order-independence of a category lookup
under a swap of two distinct-keyed successful results, and last-write-wins for
an appended write. -/
theorem claim_C6_witness :
    catLookup (combineIncrementalResults "T" "ACME" "2023"
        [CombResult.ok [("Item 1. Business", 0)], CombResult.ok [("Item 7. MDA", 1)]])
        "Part I: Business and Risk Factors" "Item 1. Business" =
      catLookup (combineIncrementalResults "T" "ACME" "2023"
        [CombResult.ok [("Item 7. MDA", 1)], CombResult.ok [("Item 1. Business", 0)]])
        "Part I: Business and Risk Factors" "Item 1. Business" ∧
    catLookup (combineIncrementalResults "T" "ACME" "2023"
        ([] ++ [CombResult.ok [("Item 1. Business", 5)]]))
        (determineSectionCategory "Item 1. Business") "Item 1. Business" = some 5 := by
  constructor
  · exact ((claim_C6_combine_amended Nat).2.1 "T" "ACME" "2023" _ _
      (by decide) (by decide) (by decide)).1 _ _
  · exact (claim_C6_combine_amended Nat).2.2 "T" "ACME" "2023" [] "Item 1. Business" 5

/-- C9.  The combined filing's category mapping has exactly the four fixed
keys, never more, never fewer; every section of every successful chunk is
routed to exactly one of the four (present under its determined category,
absent from every other); and a section name with no recognisable item number
defaults to the Part I category. -/
theorem claim_C9_category_routing (δ : Type) (now company year : String)
    (rs : List (CombResult δ)) :
    ((combineIncrementalResults now company year rs).categories.map Prod.fst =
      categoryNames) ∧
    (∀ k v, (k, v) ∈ okSections rs →
      determineSectionCategory k ∈ categoryNames ∧
      catLookup (combineIncrementalResults now company year rs)
        (determineSectionCategory k) k ≠ none ∧
      (∀ cat ∈ categoryNames, cat ≠ determineSectionCategory k →
        catLookup (combineIncrementalResults now company year rs) cat k = none)) ∧
    (∀ name : String, searchItemNumber name.data = none →
      determineSectionCategory name = "Part I: Business and Risk Factors") := by
  refine ⟨?_, ?_, ?_⟩
  · rw [combine_categories, List.map_map]
    show List.map (fun c => c) categoryNames = categoryNames
    simp
  · intro k v hkv
    refine ⟨determineSectionCategory_mem k, ?_, ?_⟩
    · rw [combine_catLookup, if_pos (determineSectionCategory_mem k)]
      have hmem : (k, v) ∈ ((okSections rs).filter
          (fun q => determineSectionCategory q.1 == determineSectionCategory k)).reverse := by
        rw [List.mem_reverse, List.mem_filter]
        exact ⟨hkv, by simp⟩
      intro hn
      rw [Option.map_eq_none'] at hn
      rw [List.find?_eq_none] at hn
      exact hn (k, v) hmem (by simp)
    · intro cat hcat hne
      rw [combine_catLookup, if_pos hcat]
      have hnone : ∀ x ∈ ((okSections rs).filter
          (fun q => determineSectionCategory q.1 == cat)).reverse,
          ¬ ((fun q : String × δ => q.1 == k) x = true) := by
        intro x hx hpx
        rw [List.mem_reverse, List.mem_filter] at hx
        have hxk : x.1 = k := by simpa using hpx
        have hdc : determineSectionCategory x.1 = cat := by simpa using hx.2
        rw [hxk] at hdc
        exact hne hdc.symm
      rw [List.find?_eq_none.mpr hnone]
      rfl
  · intro name h
    unfold determineSectionCategory
    simp [h]

/-- Witness for C9 at a concrete successful section. -/
theorem claim_C9_witness :
    determineSectionCategory "Item 1A. Risk Factors" ∈ categoryNames ∧
    catLookup (combineIncrementalResults "T" "ACME" "2023"
        [CombResult.ok [("Item 1A. Risk Factors", 0)]])
      (determineSectionCategory "Item 1A. Risk Factors") "Item 1A. Risk Factors" ≠
      none := by
  have h := (claim_C9_category_routing Nat "T" "ACME" "2023"
    [CombResult.ok [("Item 1A. Risk Factors", 0)]]).2.1 "Item 1A. Risk Factors" 0
    (by decide)
  exact ⟨h.1, h.2.1⟩

/-! ## Processor lemmas (C2, C4) -/

theorem reduceChunkSize_nonempty (c : PChunk) (h : c.sections ≠ []) :
    ∃ c', reduceChunkSize c = some c' ∧ c'.sections ≠ [] := by
  rcases hsec : c.sections with _ | ⟨s, rest⟩
  · exact absurd hsec h
  rcases rest with _ | ⟨s2, rest2⟩
  · rcases hres : reduceChunkSize c with _ | c'
    · exfalso
      unfold reduceChunkSize at hres
      rw [hsec] at hres
      simp at hres
    · refine ⟨c', rfl, ?_⟩
      unfold reduceChunkSize at hres
      rw [hsec] at hres
      simp at hres
      subst hres
      simp
  · have hgt : (s :: s2 :: rest2).length > 1 := by simp
    have hlen : (s :: s2 :: rest2).length / 2 = rest2.length / 2 + 1 := by
      simp only [List.length_cons]
      omega
    rcases hres : reduceChunkSize c with _ | c'
    · exfalso
      unfold reduceChunkSize at hres
      rw [hsec, if_pos hgt, hlen, List.take_succ_cons] at hres
      simp at hres
    · refine ⟨c', rfl, ?_⟩
      unfold reduceChunkSize at hres
      rw [hsec, if_pos hgt, hlen, List.take_succ_cons] at hres
      simp at hres
      subst hres
      simp

theorem procIteration_exn (pt : PChunk → Nat) (cap maxRetries : Nat) (msg : String)
    (rc : Nat) (c : PChunk) :
    procIteration (δ := δ) pt cap maxRetries (.exn msg) rc c =
      if pt c > cap then redStep maxRetries rc c
      else outerCatch maxRetries rc c msg := rfl

theorem procIteration_empty (pt : PChunk → Nat) (cap maxRetries rc : Nat) (c : PChunk) :
    procIteration (δ := δ) pt cap maxRetries .empty rc c =
      if pt c > cap then redStep maxRetries rc c
      else outerCatch maxRetries rc c "Empty response from Gemini" := rfl

theorem procIteration_invalid (pt : PChunk → Nat) (cap maxRetries : Nat) (raw : String)
    (rc : Nat) (c : PChunk) :
    procIteration (δ := δ) pt cap maxRetries (.invalidJson raw) rc c =
      if pt c > cap then redStep maxRetries rc c
      else if rc < maxRetries - 1 then redStep maxRetries rc c
      else .done { success := false,
                   error := some ("JSON decode error after " ++ toString (rc + 1) ++ " attempts"),
                   rawResponse := some (truncateRaw raw) } := rfl

theorem procIteration_json (pt : PChunk → Nat) (cap maxRetries : Nat) (r : RespJson δ)
    (rc : Nat) (c : PChunk) :
    procIteration pt cap maxRetries (.json r) rc c =
      if pt c > cap then redStep maxRetries rc c
      else if pyStartsWith (r.processingStatus.getD "unknown") "completed" then
        .done { success := true, result := some r,
                completedSections := r.sectionsCompleted,
                nextItem := r.nextExpectedItem, retryCount := some rc }
      else if pyStartsWith (r.processingStatus.getD "unknown") "partial" ||
          pyStartsWith (r.processingStatus.getD "unknown") "stopped" then
        if r.sectionsCompleted.isEmpty then redStep maxRetries rc c
        else if (c.sections.filter
            (fun s => !(r.sectionsCompleted.contains (itemLabel s)))).isEmpty then
          .done { success := true, result := some r,
                  completedSections := r.sectionsCompleted,
                  nextItem := none, retryCount := some rc }
        else
          .done { success := true, result := some r,
                  completedSections := r.sectionsCompleted,
                  remainingChunk := some { c with
                    sections := c.sections.filter
                      (fun s => !(r.sectionsCompleted.contains (itemLabel s))),
                    chunkId := c.chunkId ++ "_continued" },
                  partFlag := true, retryCount := some rc }
      else
        .done { success := true, result := some r,
                completedSections := [], retryCount := some rc } := rfl

theorem procIteration_spec (pt : PChunk → Nat) (cap maxRetries : Nat)
    (outcome : ModelOutcome δ) (rc : Nat) (c : PChunk) (h : c.sections ≠ []) :
    (∃ c', procIteration pt cap maxRetries outcome rc c = .cont c' ∧ c'.sections ≠ []) ∨
    (∃ r, procIteration pt cap maxRetries outcome rc c = .done r ∧
      (r.success = false → r.error.isSome)) := by
  obtain ⟨c', hred, hne⟩ := reduceChunkSize_nonempty c h
  have hstep : redStep (δ := δ) maxRetries rc c = IterStep.cont c' := by
    unfold redStep
    rw [hred]
  have houter : ∀ msg,
      (∃ c'', outerCatch maxRetries rc c msg = (.cont c'' : IterStep δ) ∧
        c''.sections ≠ []) ∨
      (∃ r, outerCatch maxRetries rc c msg = (.done r : IterStep δ) ∧
        (r.success = false → r.error.isSome)) := by
    intro msg
    unfold outerCatch
    by_cases hrc : rc < maxRetries - 1
    · rw [if_pos hrc, hred]
      exact Or.inl ⟨c', rfl, hne⟩
    · rw [if_neg hrc]
      exact Or.inr ⟨_, rfl, fun _ => rfl⟩
  cases outcome with
  | exn msg =>
    rw [procIteration_exn]
    by_cases hcap : pt c > cap
    · rw [if_pos hcap, hstep]
      exact Or.inl ⟨c', rfl, hne⟩
    · rw [if_neg hcap]
      exact houter msg
  | empty =>
    rw [procIteration_empty]
    by_cases hcap : pt c > cap
    · rw [if_pos hcap, hstep]
      exact Or.inl ⟨c', rfl, hne⟩
    · rw [if_neg hcap]
      exact houter _
  | invalidJson raw =>
    rw [procIteration_invalid]
    by_cases hcap : pt c > cap
    · rw [if_pos hcap, hstep]
      exact Or.inl ⟨c', rfl, hne⟩
    · rw [if_neg hcap]
      by_cases hrc : rc < maxRetries - 1
      · rw [if_pos hrc, hstep]
        exact Or.inl ⟨c', rfl, hne⟩
      · rw [if_neg hrc]
        exact Or.inr ⟨_, rfl, fun _ => rfl⟩
  | json r =>
    rw [procIteration_json]
    by_cases hcap : pt c > cap
    · rw [if_pos hcap, hstep]
      exact Or.inl ⟨c', rfl, hne⟩
    · rw [if_neg hcap]
      by_cases h1 : pyStartsWith (r.processingStatus.getD "unknown") "completed" = true
      · rw [if_pos h1]
        exact Or.inr ⟨_, rfl, by simp⟩
      · rw [if_neg h1]
        by_cases h2 : (pyStartsWith (r.processingStatus.getD "unknown") "partial" ||
            pyStartsWith (r.processingStatus.getD "unknown") "stopped") = true
        · rw [if_pos h2]
          by_cases h3 : r.sectionsCompleted.isEmpty = true
          · rw [if_pos h3, hstep]
            exact Or.inl ⟨c', rfl, hne⟩
          · rw [if_neg h3]
            by_cases h4 : (c.sections.filter
                (fun s => !(r.sectionsCompleted.contains (itemLabel s)))).isEmpty = true
            · rw [if_pos h4]
              exact Or.inr ⟨_, rfl, by simp⟩
            · rw [if_neg h4]
              exact Or.inr ⟨_, rfl, by simp⟩
        · rw [if_neg h2]
          exact Or.inr ⟨_, rfl, by simp⟩

theorem processLoop_total (gen : Nat → ModelOutcome δ) (pt : PChunk → Nat)
    (cap maxRetries : Nat) :
    ∀ (fuel rc : Nat) (c : PChunk), c.sections ≠ [] → maxRetries - rc < fuel →
      ∃ r, processLoop gen pt cap maxRetries fuel rc c = some (.ret r) ∧
        (r.success = false → r.error.isSome) := by
  intro fuel
  induction fuel with
  | zero =>
    intro rc c _ hf
    omega
  | succ n ih =>
    intro rc c hne hf
    by_cases hrc : rc < maxRetries
    · rcases procIteration_spec pt cap maxRetries (gen rc) rc c hne with
        ⟨c', hit, hne'⟩ | ⟨r, hit, hr⟩
      · simp only [processLoop, if_pos hrc, hit]
        exact ih (rc + 1) c' hne' (by omega)
      · simp only [processLoop, if_pos hrc, hit]
        exact ⟨r, rfl, hr⟩
    · simp only [processLoop, if_neg hrc]
      exact ⟨_, rfl, fun _ => rfl⟩

theorem processLoop_fuel_eq (gen : Nat → ModelOutcome δ) (pt : PChunk → Nat)
    (cap maxRetries : Nat) :
    ∀ (f1 f2 rc : Nat) (c : PChunk), maxRetries - rc < f1 → maxRetries - rc < f2 →
      processLoop gen pt cap maxRetries f1 rc c =
        processLoop gen pt cap maxRetries f2 rc c := by
  intro f1
  induction f1 with
  | zero =>
    intro f2 rc c h1 _
    omega
  | succ n ih =>
    intro f2 rc c h1 h2
    cases f2 with
    | zero => omega
    | succ m =>
      by_cases hrc : rc < maxRetries
      · simp only [processLoop, if_pos hrc]
        cases procIteration pt cap maxRetries (gen rc) rc c with
        | cont c' => exact ih m (rc + 1) c' (by omega) (by omega)
        | done r => rfl
        | raised msg => rfl
      · simp only [processLoop, if_neg hrc]

/-- C2 (amended).  For every chunk whose `sections` list is nonempty, every
model behaviour (always-throwing, empty, malformed-JSON, or any JSON
response), every prompt-size estimate, hard token cap and retry bound, the
`while retry_count < max_retries` loop of `process_chunk_with_backtrack`
terminates with a returned result dict: fuel `max_retries + 1` suffices, any
larger fuel yields the same answer, and whenever the returned result has
`success = False` it carries an error message.  (The nonemptiness hypothesis
is necessary: see the counterexample, where `reduce_chunk_size` raises
`IndexError` on an empty section list and the exception escapes the call.) -/
theorem claim_C2_termination_amended (δ : Type) (gen : Nat → ModelOutcome δ)
    (pt : PChunk → Nat) (cap maxRetries : Nat) (chunk : PChunk)
    (h : chunk.sections ≠ []) :
    (∃ r, processChunkWithBacktrack gen pt cap maxRetries chunk = some (.ret r) ∧
      (r.success = false → r.error.isSome)) ∧
    (∀ fuel, maxRetries < fuel →
      processLoop gen pt cap maxRetries fuel 0 chunk =
        processChunkWithBacktrack gen pt cap maxRetries chunk) := by
  constructor
  · exact processLoop_total gen pt cap maxRetries (maxRetries + 1) 0 chunk h (by omega)
  · intro fuel hf
    exact processLoop_fuel_eq gen pt cap maxRetries fuel (maxRetries + 1) 0 chunk
      (by omega) (by omega)

/-- C2 counterexample.  On a chunk whose `sections` list is empty, the shrink
step evaluates `sections[0]`, raising `IndexError`; with a throwing model and
retries remaining, the exception escapes `process_chunk_with_backtrack`
instead of a result dict being returned, refuting the unconditional
"returns a result for every input chunk" reading. -/
theorem claim_C2_counterexample :
    processChunkWithBacktrack (δ := Unit) (fun _ => .exn "boom")
        (fun c => c.content.length / 4) 800000 2
        { chunkId := "1", content := "abcdef".data, sections := [],
          startPos := 0, endPos := 6, estimatedInputTokens := 1 } =
      some (.raised "list index out of range") := by
  rfl

/-- Witness for C2: a concrete two-section chunk, an always-throwing model,
`max_retries = 3`. -/
theorem claim_C2_witness :
    ∃ r, processChunkWithBacktrack (δ := Unit) (fun _ => .exn "boom")
        (fun c => c.content.length / 4) 800000 3
        { chunkId := "7", content := List.replicate 100 'a',
          sections := [{ itemNumber := some "1", title := "Business",
                         position := 0, endPosition := 40 },
                       { itemNumber := some "1A", title := "Risk Factors",
                         position := 40, endPosition := 100 }],
          startPos := 0, endPos := 100, estimatedInputTokens := 25 } =
        some (.ret r) ∧ (r.success = false → r.error.isSome) :=
  (claim_C2_termination_amended Unit (fun _ => .exn "boom")
    (fun c => c.content.length / 4) 800000 3 _ (by decide)).1

/-- C4 (amended).  When the first attempt on a chunk yields a JSON response
whose `processing_status` starts with `partial` or `stopped` and whose
`sections_completed` list is nonempty, and the set of sections whose label
`"Item " + item_number` is NOT listed in `sections_completed` is nonempty,
`process_chunk_with_backtrack` returns a successful partial result whose
`remaining_chunk` keeps exactly those sections and whose id is the original
id with `"_continued"` appended.  Note the retained sections are those whose
bare `f"Item {item_number}"` label is absent from `sections_completed`; the
model reports completed sections under their full names
(`"Item 1. Business"`), so a section is dropped only when the reported name
equals the bare label (see the counterexample). -/
theorem claim_C4_partial_amended (δ : Type) (gen : Nat → ModelOutcome δ)
    (pt : PChunk → Nat) (cap maxRetries : Nat) (chunk : PChunk) (r : RespJson δ)
    (hmr : 0 < maxRetries)
    (hcap : ¬ pt chunk > cap)
    (hgen : gen 0 = .json r)
    (hnc : pyStartsWith (r.processingStatus.getD "unknown") "completed" = false)
    (hps : (pyStartsWith (r.processingStatus.getD "unknown") "partial" ||
        pyStartsWith (r.processingStatus.getD "unknown") "stopped") = true)
    (hcompleted : r.sectionsCompleted ≠ [])
    (hrem : chunk.sections.filter
        (fun s => !(r.sectionsCompleted.contains (itemLabel s))) ≠ []) :
    processChunkWithBacktrack gen pt cap maxRetries chunk =
      some (.ret
        { success := true
          result := some r
          completedSections := r.sectionsCompleted
          remainingChunk := some
            { chunk with
              sections :=
                chunk.sections.filter
                  (fun s => !(r.sectionsCompleted.contains (itemLabel s)))
              chunkId := chunk.chunkId ++ "_continued" }
          partFlag := true
          retryCount := some 0 }) := by
  unfold processChunkWithBacktrack
  simp only [processLoop]
  rw [if_pos hmr, hgen, procIteration_json, if_neg hcap,
    if_neg (by simp [hnc]), if_pos hps,
    if_neg (fun hx => hcompleted (List.isEmpty_iff.mp hx)),
    if_neg (fun hx => hrem (List.isEmpty_iff.mp hx))]

/-- C4 counterexample.  A two-section chunk (Item 1 "Business", Item 1A
"Risk Factors") receives a partial response whose `sections_completed`
reports the first section under its full name `"Item 1. Business"`; since
the loop removes sections by comparing the bare label `"Item 1"` against
that list, nothing matches and the `"_continued"` chunk retains BOTH
sections, not only the unfinished one.  (Claimed: the remaining chunk
contains only the sections not completed.) -/
theorem claim_C4_counterexample :
    (match processChunkWithBacktrack (δ := Unit)
        (fun _ => .json { processingStatus := some "partial_item_2",
                          sectionsCompleted := ["Item 1. Business"],
                          nextExpectedItem := some "Item 1A",
                          sections := [("Item 1. Business", ())] })
        (fun c => c.content.length / 4) 800000 3
        { chunkId := "7", content := List.replicate 100 'a',
          sections := [{ itemNumber := some "1", title := "Business",
                         position := 0, endPosition := 40 },
                       { itemNumber := some "1A", title := "Risk Factors",
                         position := 40, endPosition := 100 }],
          startPos := 0, endPos := 100, estimatedInputTokens := 25 } with
     | some (.ret r) =>
       (match r.remainingChunk with
        | some rem => (rem.chunkId, rem.sections.map PSection.itemNumber)
        | none => ("", []))
     | _ => ("", [])) = ("7_continued", [some "1", some "1A"]) := by
  rfl

/-- Witness for C4 at the same two-section chunk with a partial response
whose `sections_completed` entry happens to equal the bare label
`"Item 1"`, so that section really is removed from the continued chunk. -/
theorem claim_C4_witness :
    processChunkWithBacktrack (δ := Unit)
        (fun _ => .json { processingStatus := some "partial_item_1A",
                          sectionsCompleted := ["Item 1"],
                          nextExpectedItem := some "Item 1A",
                          sections := [("Item 1. Business", ())] })
        (fun c => c.content.length / 4) 800000 3
        { chunkId := "7", content := List.replicate 100 'a',
          sections := [{ itemNumber := some "1", title := "Business",
                         position := 0, endPosition := 40 },
                       { itemNumber := some "1A", title := "Risk Factors",
                         position := 40, endPosition := 100 }],
          startPos := 0, endPos := 100, estimatedInputTokens := 25 } =
      some (.ret
        { success := true
          result := some { processingStatus := some "partial_item_1A",
                           sectionsCompleted := ["Item 1"],
                           nextExpectedItem := some "Item 1A",
                           sections := [("Item 1. Business", ())] }
          completedSections := ["Item 1"]
          remainingChunk := some
            { chunkId := "7_continued", content := List.replicate 100 'a',
              sections := [{ itemNumber := some "1A", title := "Risk Factors",
                             position := 40, endPosition := 100 }],
              startPos := 0, endPos := 100, estimatedInputTokens := 25 }
          partFlag := true
          retryCount := some 0 }) := by
  have h := claim_C4_partial_amended Unit
    (fun _ => .json { processingStatus := some "partial_item_1A",
                      sectionsCompleted := ["Item 1"],
                      nextExpectedItem := some "Item 1A",
                      sections := [("Item 1. Business", ())] })
    (fun c => c.content.length / 4) 800000 3
    { chunkId := "7", content := List.replicate 100 'a',
      sections := [{ itemNumber := some "1", title := "Business",
                     position := 0, endPosition := 40 },
                   { itemNumber := some "1A", title := "Risk Factors",
                     position := 40, endPosition := 100 }],
      startPos := 0, endPos := 100, estimatedInputTokens := 25 }
    { processingStatus := some "partial_item_1A",
      sectionsCompleted := ["Item 1"],
      nextExpectedItem := some "Item 1A",
      sections := [("Item 1. Business", ())] }
    (by decide) (by decide) rfl (by decide) (by decide) (by decide) (by decide)
  exact h.trans (by rfl)

/-! ## Driver lemmas (C7, C8) -/

theorem processLoop_partial_first (gen : Nat → ModelOutcome δ) (pt : PChunk → Nat)
    (cap maxRetries fuel : Nat) (chunk : PChunk) (r : RespJson δ)
    (hmr : 0 < maxRetries)
    (hcap : ¬ pt chunk > cap)
    (hgen : gen 0 = .json r)
    (hnc : pyStartsWith (r.processingStatus.getD "unknown") "completed" = false)
    (hps : (pyStartsWith (r.processingStatus.getD "unknown") "partial" ||
        pyStartsWith (r.processingStatus.getD "unknown") "stopped") = true)
    (hcompleted : r.sectionsCompleted ≠ [])
    (hrem : chunk.sections.filter
        (fun s => !(r.sectionsCompleted.contains (itemLabel s))) ≠ []) :
    processLoop gen pt cap maxRetries (fuel + 1) 0 chunk =
      some (.ret
        { success := true
          result := some r
          completedSections := r.sectionsCompleted
          remainingChunk := some
            { chunk with
              sections :=
                chunk.sections.filter
                  (fun s => !(r.sectionsCompleted.contains (itemLabel s)))
              chunkId := chunk.chunkId ++ "_continued" }
          partFlag := true
          retryCount := some 0 }) := by
  simp only [processLoop]
  rw [if_pos hmr, hgen, procIteration_json, if_neg hcap,
    if_neg (by simp [hnc]), if_pos hps,
    if_neg (fun hx => hcompleted (List.isEmpty_iff.mp hx)),
    if_neg (fun hx => hrem (List.isEmpty_iff.mp hx))]

theorem processLoop_completed_first (gen : Nat → ModelOutcome δ) (pt : PChunk → Nat)
    (cap maxRetries fuel : Nat) (chunk : PChunk) (r : RespJson δ)
    (hmr : 0 < maxRetries)
    (hcap : ¬ pt chunk > cap)
    (hgen : gen 0 = .json r)
    (hc : pyStartsWith (r.processingStatus.getD "unknown") "completed" = true) :
    processLoop gen pt cap maxRetries (fuel + 1) 0 chunk =
      some (.ret
        { success := true
          result := some r
          completedSections := r.sectionsCompleted
          nextItem := r.nextExpectedItem
          retryCount := some 0 }) := by
  simp only [processLoop]
  rw [if_pos hmr, hgen, procIteration_json, if_neg hcap, if_pos hc]

theorem outerCatch_done (maxRetries rc : Nat) (c : PChunk) (msg : String)
    (r : ProcResult δ) (h : outerCatch maxRetries rc c msg = .done r) :
    r.remainingChunk = none := by
  unfold outerCatch at h
  by_cases hrc : rc < maxRetries - 1
  · rw [if_pos hrc] at h
    rcases hred : reduceChunkSize c with _ | c' <;> rw [hred] at h <;>
      exact IterStep.noConfusion h
  · rw [if_neg hrc] at h
    injection h with h'
    rw [← h']

theorem redStep_done (maxRetries rc : Nat) (c : PChunk) (r : ProcResult δ)
    (h : redStep maxRetries rc c = .done r) : r.remainingChunk = none := by
  unfold redStep at h
  rcases hred : reduceChunkSize c with _ | c' <;> rw [hred] at h
  · exact outerCatch_done maxRetries rc c _ r h
  · exact IterStep.noConfusion h

theorem procIteration_done_remaining (pt : PChunk → Nat) (cap maxRetries : Nat)
    (outcome : ModelOutcome δ) (rc : Nat) (c : PChunk) (r : ProcResult δ)
    (h : procIteration pt cap maxRetries outcome rc c = .done r) :
    ∀ rch, r.remainingChunk = some rch → rch.sections ≠ [] := by
  intro rch hrch
  cases outcome with
  | exn msg =>
    rw [procIteration_exn] at h
    by_cases hcap : pt c > cap
    · rw [if_pos hcap] at h
      rw [redStep_done _ _ _ _ h] at hrch
      cases hrch
    · rw [if_neg hcap] at h
      rw [outerCatch_done _ _ _ _ _ h] at hrch
      cases hrch
  | empty =>
    rw [procIteration_empty] at h
    by_cases hcap : pt c > cap
    · rw [if_pos hcap] at h
      rw [redStep_done _ _ _ _ h] at hrch
      cases hrch
    · rw [if_neg hcap] at h
      rw [outerCatch_done _ _ _ _ _ h] at hrch
      cases hrch
  | invalidJson raw =>
    rw [procIteration_invalid] at h
    by_cases hcap : pt c > cap
    · rw [if_pos hcap] at h
      rw [redStep_done _ _ _ _ h] at hrch
      cases hrch
    · rw [if_neg hcap] at h
      by_cases hrc : rc < maxRetries - 1
      · rw [if_pos hrc] at h
        rw [redStep_done _ _ _ _ h] at hrch
        cases hrch
      · rw [if_neg hrc] at h
        injection h with h'
        rw [← h'] at hrch
        cases hrch
  | json j =>
    rw [procIteration_json] at h
    by_cases hcap : pt c > cap
    · rw [if_pos hcap] at h
      rw [redStep_done _ _ _ _ h] at hrch
      cases hrch
    · rw [if_neg hcap] at h
      by_cases h1 : pyStartsWith (j.processingStatus.getD "unknown") "completed" = true
      · rw [if_pos h1] at h
        injection h with h'
        rw [← h'] at hrch
        cases hrch
      · rw [if_neg h1] at h
        by_cases h2 : (pyStartsWith (j.processingStatus.getD "unknown") "partial" ||
            pyStartsWith (j.processingStatus.getD "unknown") "stopped") = true
        · rw [if_pos h2] at h
          by_cases h3 : j.sectionsCompleted.isEmpty = true
          · rw [if_pos h3] at h
            rw [redStep_done _ _ _ _ h] at hrch
            cases hrch
          · rw [if_neg h3] at h
            by_cases h4 : (c.sections.filter
                (fun s => !(j.sectionsCompleted.contains (itemLabel s)))).isEmpty = true
            · rw [if_pos h4] at h
              injection h with h'
              rw [← h'] at hrch
              cases hrch
            · rw [if_neg h4] at h
              injection h with h'
              rw [← h'] at hrch
              injection hrch with h''
              rw [← h'']
              intro hx
              exact h4 (List.isEmpty_iff.mpr hx)
        · rw [if_neg h2] at h
          injection h with h'
          rw [← h'] at hrch
          cases hrch

theorem processLoop_remaining_nonempty (gen : Nat → ModelOutcome δ) (pt : PChunk → Nat)
    (cap maxRetries : Nat) :
    ∀ (fuel rc : Nat) (c : PChunk) (r : ProcResult δ) (rch : PChunk),
      processLoop gen pt cap maxRetries fuel rc c = some (.ret r) →
      r.remainingChunk = some rch → rch.sections ≠ [] := by
  intro fuel
  induction fuel with
  | zero =>
    intro rc c r rch h
    exact Option.noConfusion h
  | succ n ih =>
    intro rc c r rch h hrch
    by_cases hrc : rc < maxRetries
    · simp only [processLoop, if_pos hrc] at h
      rcases hit : procIteration pt cap maxRetries (gen rc) rc c with c' | r' | m <;>
        rw [hit] at h
      · exact ih (rc + 1) c' r rch h hrch
      · injection h with h'
        injection h' with h''
        rw [← h''] at hrch
        exact procIteration_done_remaining pt cap maxRetries (gen rc) rc c r' hit rch hrch
      · simp at h
    · simp only [processLoop, if_neg hrc] at h
      injection h with h'
      injection h' with h''
      rw [← h''] at hrch
      cases hrch

theorem drvRun_nil (gens : Nat → Nat → ModelOutcome δ)
    (ptD : Bool → PChunk → List String → Nat) (cap fuel : Nat)
    (res : List (CombResult δ)) (comp : List String) (calls : Nat) :
    drvRun gens ptD cap fuel
        { queue := [], results := res, completed := comp, calls := calls } =
      ([], .done res comp) := by
  rw [drvRun]

theorem drvRun_cons_zero (gens : Nat → Nat → ModelOutcome δ)
    (ptD : Bool → PChunk → List String → Nat) (cap : Nat) (c0 : PChunk)
    (rest : List PChunk) (res : List (CombResult δ)) (comp : List String)
    (calls : Nat) :
    drvRun gens ptD cap 0
        { queue := c0 :: rest, results := res, completed := comp, calls := calls } =
      ([], .outOfFuel) := by
  rw [drvRun]

theorem drvRun_cons_succ_eq (gens : Nat → Nat → ModelOutcome δ)
    (ptD : Bool → PChunk → List String → Nat) (cap fuel : Nat) (c0 : PChunk)
    (rest : List PChunk) (res : List (CombResult δ)) (comp : List String)
    (calls : Nat) :
    drvRun gens ptD cap (fuel + 1)
        { queue := c0 :: rest, results := res, completed := comp, calls := calls } =
      match processLoop (gens calls) (fun ch => ptD (calls == 0) ch comp)
          cap 3 4 0 c0 with
      | none => ([], .aborted "retry loop out of fuel (unreachable)")
      | some (.raised m) => ([], .aborted m)
      | some (.ret r) =>
        ((c0, r) :: (drvRun gens ptD cap fuel
            { queue := if r.success ∧ r.partFlag ∧ r.remainingChunk.isSome then
                  (r.remainingChunk.getD c0) :: rest
                else rest,
              results := res ++ [toCombResult c0 r],
              completed := comp ++ (if r.success then r.completedSections else []),
              calls := calls + 1 }).1,
          (drvRun gens ptD cap fuel
            { queue := if r.success ∧ r.partFlag ∧ r.remainingChunk.isSome then
                  (r.remainingChunk.getD c0) :: rest
                else rest,
              results := res ++ [toCombResult c0 r],
              completed := comp ++ (if r.success then r.completedSections else []),
              calls := calls + 1 }).2) := by
  rw [drvRun]

theorem drvRun_cons_none (gens : Nat → Nat → ModelOutcome δ)
    (ptD : Bool → PChunk → List String → Nat) (cap fuel : Nat) (c0 : PChunk)
    (rest : List PChunk) (res : List (CombResult δ)) (comp : List String)
    (calls : Nat)
    (h : processLoop (gens calls) (fun ch => ptD (calls == 0) ch comp)
        cap 3 4 0 c0 = none) :
    drvRun gens ptD cap (fuel + 1)
        { queue := c0 :: rest, results := res, completed := comp, calls := calls } =
      ([], .aborted "retry loop out of fuel (unreachable)") := by
  rw [drvRun_cons_succ_eq, h]

theorem drvRun_cons_raised (gens : Nat → Nat → ModelOutcome δ)
    (ptD : Bool → PChunk → List String → Nat) (cap fuel : Nat) (c0 : PChunk)
    (rest : List PChunk) (res : List (CombResult δ)) (comp : List String)
    (calls : Nat) (m : String)
    (h : processLoop (gens calls) (fun ch => ptD (calls == 0) ch comp)
        cap 3 4 0 c0 = some (.raised m)) :
    drvRun gens ptD cap (fuel + 1)
        { queue := c0 :: rest, results := res, completed := comp, calls := calls } =
      ([], .aborted m) := by
  rw [drvRun_cons_succ_eq, h]

theorem drvRun_cons_ret (gens : Nat → Nat → ModelOutcome δ)
    (ptD : Bool → PChunk → List String → Nat) (cap fuel : Nat) (c0 : PChunk)
    (rest : List PChunk) (res : List (CombResult δ)) (comp : List String)
    (calls : Nat) (r : ProcResult δ)
    (h : processLoop (gens calls) (fun ch => ptD (calls == 0) ch comp)
        cap 3 4 0 c0 = some (.ret r)) :
    drvRun gens ptD cap (fuel + 1)
        { queue := c0 :: rest, results := res, completed := comp, calls := calls } =
      ((c0, r) :: (drvRun gens ptD cap fuel
          { queue := if r.success ∧ r.partFlag ∧ r.remainingChunk.isSome then
                (r.remainingChunk.getD c0) :: rest
              else rest,
            results := res ++ [toCombResult c0 r],
            completed := comp ++ (if r.success then r.completedSections else []),
            calls := calls + 1 }).1,
        (drvRun gens ptD cap fuel
          { queue := if r.success ∧ r.partFlag ∧ r.remainingChunk.isSome then
                (r.remainingChunk.getD c0) :: rest
              else rest,
            results := res ++ [toCombResult c0 r],
            completed := comp ++ (if r.success then r.completedSections else []),
            calls := calls + 1 }).2) := by
  rw [drvRun_cons_succ_eq, h]

theorem drvRun_trace_head (gens : Nat → Nat → ModelOutcome δ)
    (ptD : Bool → PChunk → List String → Nat) (cap : Nat) :
    ∀ (fuel : Nat) (q : List PChunk) (res : List (CombResult δ)) (comp : List String)
      (calls : Nat) (p : PChunk × ProcResult δ),
      (drvRun gens ptD cap fuel
        { queue := q, results := res, completed := comp, calls := calls }).1.head? =
          some p →
      q.head? = some p.1 := by
  intro fuel q res comp calls p h
  rcases q with _ | ⟨c0, rest⟩
  · rw [drvRun_nil] at h
    simp at h
  · cases fuel with
    | zero =>
      rw [drvRun_cons_zero] at h
      simp at h
    | succ fuel' =>
      rcases hpl : processLoop (gens calls) (fun ch => ptD (calls == 0) ch comp)
          cap 3 4 0 c0 with _ | out
      · rw [drvRun_cons_none gens ptD cap fuel' c0 rest res comp calls hpl] at h
        simp at h
      · rcases out with r | m
        · rw [drvRun_cons_ret gens ptD cap fuel' c0 rest res comp calls r hpl] at h
          simp only [List.head?_cons, Option.some.injEq] at h
          rw [List.head?_cons, ← h]
        · rw [drvRun_cons_raised gens ptD cap fuel' c0 rest res comp calls m hpl] at h
          simp at h

theorem drvRun_done_results (gens : Nat → Nat → ModelOutcome δ)
    (ptD : Bool → PChunk → List String → Nat) (cap : Nat) :
    ∀ (fuel : Nat) (q : List PChunk) (res : List (CombResult δ)) (comp : List String)
      (calls : Nat) (res' : List (CombResult δ)) (comp' : List String),
      (drvRun gens ptD cap fuel
        { queue := q, results := res, completed := comp, calls := calls }).2 =
          .done res' comp' →
      res' = res ++ ((drvRun gens ptD cap fuel
        { queue := q, results := res, completed := comp, calls := calls }).1).map
          (fun p => toCombResult p.1 p.2) := by
  intro fuel
  induction fuel with
  | zero =>
    intro q res comp calls res' comp' h
    rcases q with _ | ⟨c0, rest⟩
    · rw [drvRun_nil] at h ⊢
      injection h with h1 h2
      simp [← h1]
    · rw [drvRun_cons_zero] at h
      exact DrvOutcome.noConfusion h
  | succ fuel' ih =>
    intro q res comp calls res' comp' h
    rcases q with _ | ⟨c0, rest⟩
    · rw [drvRun_nil] at h ⊢
      injection h with h1 h2
      simp [← h1]
    · rcases hpl : processLoop (gens calls) (fun ch => ptD (calls == 0) ch comp)
          cap 3 4 0 c0 with _ | out
      · rw [drvRun_cons_none gens ptD cap fuel' c0 rest res comp calls hpl] at h
        exact DrvOutcome.noConfusion h
      · rcases out with r | m
        · rw [drvRun_cons_ret gens ptD cap fuel' c0 rest res comp calls r hpl] at h ⊢
          have h2 := ih _ _ _ _ _ _ h
          rw [h2]
          simp
        · rw [drvRun_cons_raised gens ptD cap fuel' c0 rest res comp calls m hpl] at h
          exact DrvOutcome.noConfusion h

theorem drvRun_no_abort (gens : Nat → Nat → ModelOutcome δ)
    (ptD : Bool → PChunk → List String → Nat) (cap : Nat) :
    ∀ (fuel : Nat) (q : List PChunk) (res : List (CombResult δ)) (comp : List String)
      (calls : Nat), (∀ c ∈ q, c.sections ≠ []) → ∀ m,
      (drvRun gens ptD cap fuel
        { queue := q, results := res, completed := comp, calls := calls }).2 ≠
          .aborted m := by
  intro fuel
  induction fuel with
  | zero =>
    intro q res comp calls hq m
    rcases q with _ | ⟨c0, rest⟩
    · rw [drvRun_nil]
      simp
    · rw [drvRun_cons_zero]
      simp
  | succ fuel' ih =>
    intro q res comp calls hq m
    rcases q with _ | ⟨c0, rest⟩
    · rw [drvRun_nil]
      simp
    · obtain ⟨r, hpl, _⟩ := processLoop_total (gens calls)
        (fun ch => ptD (calls == 0) ch comp) cap 3 4 0 c0
        (hq c0 (List.mem_cons_self c0 rest)) (by omega)
      rw [drvRun_cons_ret gens ptD cap fuel' c0 rest res comp calls r hpl]
      refine ih _ _ _ _ ?_ m
      intro c' hc'
      by_cases hcond : r.success ∧ r.partFlag ∧ r.remainingChunk.isSome
      · rw [if_pos hcond] at hc'
        rcases List.mem_cons.mp hc' with hh | ht
        · obtain ⟨rc, hrc⟩ := Option.isSome_iff_exists.mp hcond.2.2
          rw [hh, hrc, Option.getD_some]
          exact processLoop_remaining_nonempty (gens calls)
            (fun ch => ptD (calls == 0) ch comp) cap 3 4 0 c0 r rc hpl hrc
        · exact hq c' (List.mem_cons_of_mem c0 ht)
      · rw [if_neg hcond] at hc'
        exact hq c' (List.mem_cons_of_mem c0 hc')

theorem drvRun_measure_term (gens : Nat → Nat → ModelOutcome δ)
    (ptD : Bool → PChunk → List String → Nat) (cap : Nat)
    (Hshrink : ∀ (k : Nat) (comp : List String) (c : PChunk) (r : ProcResult δ)
      (rc : PChunk),
      processLoop (gens k) (fun ch => ptD (k == 0) ch comp) cap 3 4 0 c =
        some (.ret r) →
      r.success = true → r.partFlag = true → r.remainingChunk = some rc →
      rc.sections.length < c.sections.length) :
    ∀ (fuel : Nat) (q : List PChunk) (res : List (CombResult δ)) (comp : List String)
      (calls : Nat),
      drvMeasure { queue := q, results := res, completed := comp, calls := calls } < fuel →
      (drvRun (δ := δ) gens ptD cap fuel
        { queue := q, results := res, completed := comp, calls := calls }).2 ≠
          .outOfFuel := by
  intro fuel
  induction fuel with
  | zero =>
    intro q res comp calls hf
    exact absurd hf (by omega)
  | succ fuel' ih =>
    intro q res comp calls hf
    rcases q with _ | ⟨c0, rest⟩
    · rw [drvRun_nil]
      simp
    · rcases hpl : processLoop (gens calls) (fun ch => ptD (calls == 0) ch comp)
          cap 3 4 0 c0 with _ | out
      · rw [drvRun_cons_none gens ptD cap fuel' c0 rest res comp calls hpl]
        simp
      · rcases out with r | m
        · rw [drvRun_cons_ret gens ptD cap fuel' c0 rest res comp calls r hpl]
          refine ih _ _ _ _ ?_
          unfold drvMeasure at hf ⊢
          simp only [List.map_cons, List.sum_cons] at hf
          by_cases hcond : r.success ∧ r.partFlag ∧ r.remainingChunk.isSome
          · rw [if_pos hcond]
            obtain ⟨rc, hrc⟩ := Option.isSome_iff_exists.mp hcond.2.2
            have hlt := Hshrink calls comp c0 r rc hpl hcond.1 hcond.2.1 hrc
            rw [hrc, Option.getD_some]
            simp only [List.map_cons, List.sum_cons]
            omega
          · rw [if_neg hcond]
            show (List.map (fun c => c.sections.length + 1) rest).sum < fuel'
            omega
        · rw [drvRun_cons_raised gens ptD cap fuel' c0 rest res comp calls m hpl]
          simp

theorem drvRun_stuck :
    ∀ (fuel : Nat) (res : List (CombResult Unit)) (comp : List String)
      (calls : Nat) (id' : String),
      (drvRun (fun _ _ => .json { processingStatus := some "partial_item_2",
                                  sectionsCompleted := ["X"],
                                  nextExpectedItem := none, sections := [] })
        (fun _ ch _ => ch.content.length / 4) 800000 fuel
        { queue := [{ chunkId := id', content := List.replicate 100 'a',
                      sections := [{ itemNumber := some "1", title := "Business",
                                     position := 0, endPosition := 40 }],
                      startPos := 0, endPos := 100, estimatedInputTokens := 25 }],
          results := res, completed := comp, calls := calls }).2 =
      DrvOutcome.outOfFuel := by
  intro fuel
  induction fuel with
  | zero =>
    intro res comp calls id'
    rw [drvRun_cons_zero]
  | succ fuel' ih =>
    intro res comp calls id'
    have hpl := processLoop_partial_first (δ := Unit)
      ((fun _ _ => ModelOutcome.json { processingStatus := some "partial_item_2",
                                       sectionsCompleted := ["X"],
                                       nextExpectedItem := none, sections := [] }) calls)
      (fun ch => (fun (_ : Bool) (ch : PChunk) (_ : List String) =>
        ch.content.length / 4) (calls == 0) ch comp)
      800000 3 3
      { chunkId := id', content := List.replicate 100 'a',
        sections := [{ itemNumber := some "1", title := "Business",
                       position := 0, endPosition := 40 }],
        startPos := 0, endPos := 100, estimatedInputTokens := 25 }
      { processingStatus := some "partial_item_2", sectionsCompleted := ["X"],
        nextExpectedItem := none, sections := [] }
      (by decide)
      (by show ¬((List.replicate 100 'a').length / 4 > 800000); decide)
      rfl (by decide) (by decide) (by decide)
      (by
        show List.filter (fun s => !((["X"] : List String).contains (itemLabel s)))
          [{ itemNumber := some "1", title := "Business",
             position := 0, endPosition := 40 }] ≠ []
        decide)
    rw [drvRun_cons_ret
      (fun _ _ => ModelOutcome.json { processingStatus := some "partial_item_2",
                                      sectionsCompleted := ["X"],
                                      nextExpectedItem := none, sections := [] })
      (fun _ ch _ => ch.content.length / 4) 800000 fuel'
      { chunkId := id', content := List.replicate 100 'a',
        sections := [{ itemNumber := some "1", title := "Business",
                       position := 0, endPosition := 40 }],
        startPos := 0, endPos := 100, estimatedInputTokens := 25 }
      [] res comp calls _ hpl]
    exact ih (res ++ [toCombResult
        { chunkId := id', content := List.replicate 100 'a',
          sections := [{ itemNumber := some "1", title := "Business",
                         position := 0, endPosition := 40 }],
          startPos := 0, endPos := 100, estimatedInputTokens := 25 }
        { success := true
          result := some { processingStatus := some "partial_item_2",
                           sectionsCompleted := ["X"],
                           nextExpectedItem := none, sections := [] }
          completedSections := ["X"]
          remainingChunk := some
            { chunkId := id' ++ "_continued", content := List.replicate 100 'a',
              sections := [{ itemNumber := some "1", title := "Business",
                             position := 0, endPosition := 40 }],
              startPos := 0, endPos := 100, estimatedInputTokens := 25 }
          partFlag := true
          retryCount := some 0 }])
      (comp ++ ["X"]) (calls + 1) (id' ++ "_continued")

theorem drvRun_trace_consecutive (gens : Nat → Nat → ModelOutcome δ)
    (ptD : Bool → PChunk → List String → Nat) (cap : Nat) :
    ∀ (fuel : Nat) (q : List PChunk) (res : List (CombResult δ)) (comp : List String)
      (calls : Nat) (i : Nat) (c c' : PChunk) (r r' : ProcResult δ) (rc : PChunk),
      (drvRun gens ptD cap fuel
        { queue := q, results := res, completed := comp, calls := calls }).1[i]? =
          some (c, r) →
      (drvRun gens ptD cap fuel
        { queue := q, results := res, completed := comp, calls := calls }).1[i + 1]? =
          some (c', r') →
      r.success = true → r.partFlag = true → r.remainingChunk = some rc →
      c' = rc := by
  intro fuel
  induction fuel with
  | zero =>
    intro q res comp calls i c c' r r' rc h1 h2 hs hp hrc
    rcases q with _ | ⟨c0, rest⟩
    · rw [drvRun_nil] at h1
      simp at h1
    · rw [drvRun_cons_zero] at h1
      simp at h1
  | succ fuel' ih =>
    intro q res comp calls i c c' r r' rc h1 h2 hs hp hrc
    rcases q with _ | ⟨c0, rest⟩
    · rw [drvRun_nil] at h1
      simp at h1
    · rcases hpl : processLoop (gens calls) (fun ch => ptD (calls == 0) ch comp)
          cap 3 4 0 c0 with _ | out
      · rw [drvRun_cons_none gens ptD cap fuel' c0 rest res comp calls hpl] at h1
        simp at h1
      · rcases out with r0 | m
        · rw [drvRun_cons_ret gens ptD cap fuel' c0 rest res comp calls r0 hpl] at h1 h2
          cases i with
          | zero =>
            simp only [List.getElem?_cons_zero, Option.some.injEq] at h1
            have hc : c0 = c := congrArg Prod.fst h1
            have hr : r0 = r := congrArg Prod.snd h1
            subst hc
            subst hr
            simp only [List.getElem?_cons_succ] at h2
            have hh := drvRun_trace_head gens ptD cap fuel' _ _ _ _ (c', r')
              (by rw [List.head?_eq_getElem?]; exact h2)
            rw [if_pos ⟨hs, hp, by rw [hrc]; rfl⟩] at hh
            simp only [List.head?_cons, Option.some.injEq] at hh
            rw [hrc, Option.getD_some] at hh
            exact hh.symm
          | succ j =>
            simp only [List.getElem?_cons_succ] at h1 h2
            exact ih _ _ _ _ j c c' r r' rc h1 h2 hs hp hrc
        · rw [drvRun_cons_raised gens ptD cap fuel' c0 rest res comp calls m hpl] at h1
          simp at h1

/-- C7 (amended).  Provided every partial result's remaining chunk carries
strictly fewer sections than the chunk it came from (`Hshrink` — true of the
intended `sections_completed` contract but not of the code, see the
counterexample), the `while chunk_queue` loop of `process_with_gemini`
terminates for every model behaviour; whenever it completes normally, the
accumulated `all_results` list is the initial list plus one entry per
processed chunk in order, the combiner turns exactly the failed entries into
`{chunk_id, error, sections_attempted}` records under
`processing_metadata.failed_chunks`, and the section categories are built
from successful results only (failed chunks contribute no section content);
moreover if every queued chunk has a nonempty section list, no exception
escapes the chunking loop (the loop never aborts). -/
theorem claim_C7_pipeline_amended (δ : Type) (gens : Nat → Nat → ModelOutcome δ)
    (ptD : Bool → PChunk → List String → Nat) (cap : Nat) (st : DrvState δ)
    (Hshrink : ∀ (k : Nat) (comp : List String) (c : PChunk) (r : ProcResult δ)
      (rc : PChunk),
      processLoop (gens k) (fun ch => ptD (k == 0) ch comp) cap 3 4 0 c =
        some (.ret r) →
      r.success = true → r.partFlag = true → r.remainingChunk = some rc →
      rc.sections.length < c.sections.length) :
    DrvTerminates gens ptD cap st ∧
    (∀ fuel res' comp' now company year,
      (drvRun gens ptD cap fuel st).2 = .done res' comp' →
      res' = st.results ++
        (drvRun gens ptD cap fuel st).1.map (fun p => toCombResult p.1 p.2) ∧
      (combineIncrementalResults now company year res').failedChunks =
        failedRecs res' ∧
      (combineIncrementalResults now company year res').categories =
        categoryNames.map (fun cat =>
          (cat, dictFold [] ((okSections res').filter
            (fun s => determineSectionCategory s.1 == cat))))) ∧
    ((∀ c ∈ st.queue, c.sections ≠ []) →
      ∀ fuel m, (drvRun gens ptD cap fuel st).2 ≠ .aborted m) := by
  obtain ⟨q, res, comp, calls⟩ := st
  refine ⟨?_, ?_, ?_⟩
  · exact ⟨drvMeasure { queue := q, results := res, completed := comp, calls := calls } + 1,
      drvRun_measure_term gens ptD cap Hshrink _ q res comp calls (by omega)⟩
  · intro fuel res' comp' now company year h
    exact ⟨drvRun_done_results gens ptD cap fuel q res comp calls res' comp' h,
      combine_failedChunks now company year res',
      combine_categories now company year res'⟩
  · intro hq fuel m
    exact drvRun_no_abort gens ptD cap fuel q res comp calls hq m

/-- C7 counterexample.  A model that always answers
`processing_status = "partial_item_2"` with `sections_completed = ["X"]`
makes the loop requeue, forever, a remaining chunk with the same sections
(only the chunk id grows by `"_continued"`): the claimed unconditional
termination of the pipeline fails — no fuel bound reaches a terminal
outcome. -/
theorem claim_C7_counterexample :
    ¬ DrvTerminates (δ := Unit)
      (fun _ _ => .json { processingStatus := some "partial_item_2",
                          sectionsCompleted := ["X"],
                          nextExpectedItem := none, sections := [] })
      (fun _ ch _ => ch.content.length / 4) 800000
      { queue := [{ chunkId := "1", content := List.replicate 100 'a',
                    sections := [{ itemNumber := some "1", title := "Business",
                                   position := 0, endPosition := 40 }],
                    startPos := 0, endPos := 100, estimatedInputTokens := 25 }],
        results := [], completed := [], calls := 0 } := by
  rintro ⟨fuel, hne⟩
  exact hne (drvRun_stuck fuel [] [] 0 "1")

/-- Witness for C7 with an always-completing model (the shrink hypothesis
holds vacuously because no result is partial): the driver terminates. -/
theorem claim_C7_witness :
    DrvTerminates (δ := Unit)
      (fun _ _ => .json { processingStatus := some "completed",
                          sectionsCompleted := ["Item 1"],
                          nextExpectedItem := none,
                          sections := [("Item 1. Business", ())] })
      (fun _ _ _ => 0) 0
      { queue := [{ chunkId := "1", content := List.replicate 100 'a',
                    sections := [{ itemNumber := some "1", title := "Business",
                                   position := 0, endPosition := 40 }],
                    startPos := 0, endPos := 100, estimatedInputTokens := 25 }],
        results := [], completed := [], calls := 0 } :=
  (claim_C7_pipeline_amended Unit
    (fun _ _ => .json { processingStatus := some "completed",
                        sectionsCompleted := ["Item 1"],
                        nextExpectedItem := none,
                        sections := [("Item 1. Business", ())] })
    (fun _ _ _ => 0) 0
    { queue := [{ chunkId := "1", content := List.replicate 100 'a',
                  sections := [{ itemNumber := some "1", title := "Business",
                                 position := 0, endPosition := 40 }],
                  startPos := 0, endPos := 100, estimatedInputTokens := 25 }],
      results := [], completed := [], calls := 0 }
    (by
      intro k comp c r rc hpl hs hp hrc
      have hcomp := processLoop_completed_first (δ := Unit)
        ((fun _ _ => ModelOutcome.json
          { processingStatus := some "completed",
            sectionsCompleted := ["Item 1"],
            nextExpectedItem := none,
            sections := [("Item 1. Business", ())] }) k)
        (fun ch => (fun (_ : Bool) (_ : PChunk) (_ : List String) => 0)
          (k == 0) ch comp)
        0 3 3 c
        { processingStatus := some "completed",
          sectionsCompleted := ["Item 1"],
          nextExpectedItem := none,
          sections := [("Item 1. Business", ())] }
        (by decide) (by show ¬((0 : Nat) > 0); decide) rfl (by decide)
      have hpl' := hcomp.symm.trans hpl
      injection hpl' with h1
      injection h1 with h2
      rw [← h2] at hp
      exact absurd hp (by decide))).1

/-- C8.  In the `while chunk_queue` loop, the first processed chunk is the
one popped from the front of the queue (chunks are processed strictly one at
a time, in trace order), and whenever a processed chunk's successful result
is partial and carries a `remaining_chunk`, the very next processed chunk IS
that remaining chunk: `chunk_queue.insert(0, ...)` guarantees the
continuation runs before any subsequently planned chunk. -/
theorem claim_C8_front_insertion (δ : Type) (gens : Nat → Nat → ModelOutcome δ)
    (ptD : Bool → PChunk → List String → Nat) (cap fuel : Nat) (st : DrvState δ) :
    (∀ p, (drvRun gens ptD cap fuel st).1.head? = some p →
      st.queue.head? = some p.1) ∧
    (∀ (i : Nat) (c c' : PChunk) (r r' : ProcResult δ) (rc : PChunk),
      (drvRun gens ptD cap fuel st).1[i]? = some (c, r) →
      (drvRun gens ptD cap fuel st).1[i + 1]? = some (c', r') →
      r.success = true → r.partFlag = true → r.remainingChunk = some rc →
      c' = rc) := by
  obtain ⟨q, res, comp, calls⟩ := st
  exact ⟨fun p h => drvRun_trace_head gens ptD cap fuel q res comp calls p h,
    fun i c c' r r' rc h1 h2 hs hp hrc =>
      drvRun_trace_consecutive gens ptD cap fuel q res comp calls i c c' r r' rc
        h1 h2 hs hp hrc⟩

/-- Witness for C8: a two-section chunk whose first call returns a partial
result (completing `"Item 1"` under its bare label) and whose second call
completes; the head of the trace is the queue head, and the chunk processed
right after the partial one is exactly its `remaining_chunk`. -/
theorem claim_C8_witness :
    (({ queue := [{ chunkId := "7", content := List.replicate 100 'a',
                    sections := [{ itemNumber := some "1", title := "Business",
                                   position := 0, endPosition := 40 },
                                 { itemNumber := some "1A", title := "Risk Factors",
                                   position := 40, endPosition := 100 }],
                    startPos := 0, endPos := 100, estimatedInputTokens := 25 }],
        results := [], completed := [], calls := 0 } : DrvState Unit).queue.head? =
      some { chunkId := "7", content := List.replicate 100 'a',
             sections := [{ itemNumber := some "1", title := "Business",
                            position := 0, endPosition := 40 },
                          { itemNumber := some "1A", title := "Risk Factors",
                            position := 40, endPosition := 100 }],
             startPos := 0, endPos := 100, estimatedInputTokens := 25 }) ∧
    (({ chunkId := "7_continued", content := List.replicate 100 'a',
        sections := [{ itemNumber := some "1A", title := "Risk Factors",
                       position := 40, endPosition := 100 }],
        startPos := 0, endPos := 100, estimatedInputTokens := 25 } : PChunk) =
      { chunkId := "7_continued", content := List.replicate 100 'a',
        sections := [{ itemNumber := some "1A", title := "Risk Factors",
                       position := 40, endPosition := 100 }],
        startPos := 0, endPos := 100, estimatedInputTokens := 25 }) :=
  ⟨(claim_C8_front_insertion Unit
      (fun k _ => if k == 0 then
        .json { processingStatus := some "partial_item_1A",
                sectionsCompleted := ["Item 1"],
                nextExpectedItem := some "Item 1A",
                sections := [("Item 1. Business", ())] }
      else
        .json { processingStatus := some "completed",
                sectionsCompleted := ["Item 1A"],
                nextExpectedItem := none,
                sections := [("Item 1A. Risk Factors", ())] })
      (fun _ ch _ => ch.content.length / 4) 800000 5
      { queue := [{ chunkId := "7", content := List.replicate 100 'a',
                    sections := [{ itemNumber := some "1", title := "Business",
                                   position := 0, endPosition := 40 },
                                 { itemNumber := some "1A", title := "Risk Factors",
                                   position := 40, endPosition := 100 }],
                    startPos := 0, endPos := 100, estimatedInputTokens := 25 }],
        results := [], completed := [], calls := 0 }).1
    ({ chunkId := "7", content := List.replicate 100 'a',
       sections := [{ itemNumber := some "1", title := "Business",
                      position := 0, endPosition := 40 },
                    { itemNumber := some "1A", title := "Risk Factors",
                      position := 40, endPosition := 100 }],
       startPos := 0, endPos := 100, estimatedInputTokens := 25 },
     { success := true
       result := some { processingStatus := some "partial_item_1A",
                        sectionsCompleted := ["Item 1"],
                        nextExpectedItem := some "Item 1A",
                        sections := [("Item 1. Business", ())] }
       completedSections := ["Item 1"]
       remainingChunk := some
         { chunkId := "7_continued", content := List.replicate 100 'a',
           sections := [{ itemNumber := some "1A", title := "Risk Factors",
                          position := 40, endPosition := 100 }],
           startPos := 0, endPos := 100, estimatedInputTokens := 25 }
       partFlag := true
       retryCount := some 0 })
    (by decide),
   (claim_C8_front_insertion Unit
      (fun k _ => if k == 0 then
        .json { processingStatus := some "partial_item_1A",
                sectionsCompleted := ["Item 1"],
                nextExpectedItem := some "Item 1A",
                sections := [("Item 1. Business", ())] }
      else
        .json { processingStatus := some "completed",
                sectionsCompleted := ["Item 1A"],
                nextExpectedItem := none,
                sections := [("Item 1A. Risk Factors", ())] })
      (fun _ ch _ => ch.content.length / 4) 800000 5
      { queue := [{ chunkId := "7", content := List.replicate 100 'a',
                    sections := [{ itemNumber := some "1", title := "Business",
                                   position := 0, endPosition := 40 },
                                 { itemNumber := some "1A", title := "Risk Factors",
                                   position := 40, endPosition := 100 }],
                    startPos := 0, endPos := 100, estimatedInputTokens := 25 }],
        results := [], completed := [], calls := 0 }).2
    0
    { chunkId := "7", content := List.replicate 100 'a',
      sections := [{ itemNumber := some "1", title := "Business",
                     position := 0, endPosition := 40 },
                   { itemNumber := some "1A", title := "Risk Factors",
                     position := 40, endPosition := 100 }],
      startPos := 0, endPos := 100, estimatedInputTokens := 25 }
    { chunkId := "7_continued", content := List.replicate 100 'a',
      sections := [{ itemNumber := some "1A", title := "Risk Factors",
                     position := 40, endPosition := 100 }],
      startPos := 0, endPos := 100, estimatedInputTokens := 25 }
    { success := true
      result := some { processingStatus := some "partial_item_1A",
                       sectionsCompleted := ["Item 1"],
                       nextExpectedItem := some "Item 1A",
                       sections := [("Item 1. Business", ())] }
      completedSections := ["Item 1"]
      remainingChunk := some
        { chunkId := "7_continued", content := List.replicate 100 'a',
          sections := [{ itemNumber := some "1A", title := "Risk Factors",
                         position := 40, endPosition := 100 }],
          startPos := 0, endPos := 100, estimatedInputTokens := 25 }
      partFlag := true
      retryCount := some 0 }
    { success := true
      result := some { processingStatus := some "completed",
                       sectionsCompleted := ["Item 1A"],
                       nextExpectedItem := none,
                       sections := [("Item 1A. Risk Factors", ())] }
      completedSections := ["Item 1A"]
      nextItem := none
      retryCount := some 0 }
    { chunkId := "7_continued", content := List.replicate 100 'a',
      sections := [{ itemNumber := some "1A", title := "Risk Factors",
                     position := 40, endPosition := 100 }],
      startPos := 0, endPos := 100, estimatedInputTokens := 25 }
    (by decide) (by decide) rfl rfl rfl⟩
